import Mathlib

/-!
A fetch-decode-execute toy virtual machine (`vm.c`).

Shallow embedding of `src/vm.c` and the properties of its specification.

Conventions of the embedding.

* A `uint8_t` is a `Byte`, a natural number below 256; every arithmetic result
  is computed in the integers and reduced with an explicit `% 256` (`to_u8`),
  as the C conversion to `uint8_t` does.
* A C array of `n` bytes is a function from `Fin n`; an index is a natural
  number, and an access with an index outside the array has no defined
  behaviour in C: the model stops with a `Fault` saying which access it was.
  For `fetch`, whose operand reads are unchecked, `fetch_unchecked` is the same
  function with those reads returning the byte that lies behind the array, as
  the compiled function does; it agrees with `fetch` wherever `fetch` returns.
* The three places where the program prints a message and calls `exit(1)` are
  three further `Fault`s.
* An out-parameter (`raw_instr`, `instr`) is passed in with its previous
  contents and returned with its new contents; a field the C code does not
  write keeps its previous contents.
* `malloc` is taken to succeed.
-/

namespace ToyVm

/-- An unsigned 8-bit value (`uint8_t`). -/
abbrev Byte := Fin 256

/-- Conversion of an integer result to `uint8_t`: reduction modulo 256. -/
def to_u8 (n : Int) : Byte := ⟨(n % 256).toNat, by omega⟩

/-! ## Constants -/

def NIL : Byte := 0x00
def LOAD : Byte := 0x01
def STORE : Byte := 0x02
def ADD : Byte := 0x03
def SUB : Byte := 0x04
def HALT : Byte := 0xff

def PC : Nat := 0x00
def R1 : Nat := 0x01
def R2 : Nat := 0x02

/-! ## Data model -/

/-- The machine state `struct Vm`: the array `regs[3]`, holding `[PC, R1, R2]`. -/
structure Vm where
  regs : Fin 3 → Byte

/-- The main memory `uint8_t mem[256]`. -/
abbrev Mem := Fin 256 → Byte

/-- The raw instruction `struct RawInstr`. -/
structure RawInstr where
  kind : Byte
  args : Fin 2 → Byte

structure LoadInstr where
  reg : Byte
  addr : Byte
deriving DecidableEq

structure StoreInstr where
  reg : Byte
  addr : Byte
deriving DecidableEq

/-- The payload of an addition: the sum is stored in `a`. -/
structure AddInstr where
  a : Byte
  b : Byte
deriving DecidableEq

/-- The payload of a subtraction: the difference is stored in `a`. -/
structure SubInstr where
  a : Byte
  b : Byte
deriving DecidableEq

/-- What the pointer `void *inner` of a `struct Instr` points to: a live payload
of one of the four payload types, or nothing usable (`dangling`: the pointer was
never assigned, or its payload has been freed). -/
inductive Inner where
  | load (p : LoadInstr)
  | store (p : StoreInstr)
  | add (p : AddInstr)
  | sub (p : SubInstr)
  | dangling
deriving DecidableEq

/-- The decoded instruction `struct Instr`: a tag and a payload pointer. -/
structure Instr where
  kind : Byte
  inner : Inner
deriving DecidableEq

/-- The ways a call can fail to return. The first three are reported by the
program (a message, then `exit(1)`); the last three are accesses with no defined
behaviour, which the program neither checks nor reports. -/
inductive Fault where
  /-- From `fetch`: "tried to fetch address bigger than main memory". -/
  | fetchOutOfBounds
  /-- From `decode`: "failed to decode unknown instruction". -/
  | decodeUnknown (kind : Byte)
  /-- From `execute`: "unknown instruction". -/
  | executeUnknown (kind : Byte)
  /-- An access `mem[idx]` with `idx` outside `[0, 256)`. -/
  | memOutOfBounds (idx : Nat)
  /-- An access `regs[idx]` with `idx` outside `[0, 3)`. -/
  | regOutOfBounds (idx : Nat)
  /-- A payload pointer cast to a type other than that of its payload. -/
  | badPayload
deriving DecidableEq

/-! ## Array accesses -/

/-- The read `mem[idx]`. -/
def mem_read (mem : Mem) (idx : Nat) : Except Fault Byte :=
  if h : idx < 256 then .ok (mem ⟨idx, h⟩) else .error (.memOutOfBounds idx)

/-- The write `mem[idx] = v`. -/
def mem_write (mem : Mem) (idx : Nat) (v : Byte) : Except Fault Mem :=
  if h : idx < 256 then .ok (Function.update mem ⟨idx, h⟩ v)
  else .error (.memOutOfBounds idx)

/-- The read `vm.regs[idx]`. -/
def reg_read (vm : Vm) (idx : Nat) : Except Fault Byte :=
  if h : idx < 3 then .ok (vm.regs ⟨idx, h⟩) else .error (.regOutOfBounds idx)

/-- The write `vm->regs[idx] = v`. -/
def reg_write (vm : Vm) (idx : Nat) (v : Byte) : Except Fault Vm :=
  if h : idx < 3 then .ok ⟨Function.update vm.regs ⟨idx, h⟩ v⟩
  else .error (.regOutOfBounds idx)

/-! ## The functions of `vm.c` -/

/-- The initial machine state: instructions start at index 8 of the main memory. -/
def vm_init : Vm := ⟨fun i => if i.val = PC then 8 else 0⟩

/-- The function `raw_instr_nil` sets `kind` only; `args` stands for the
contents its array `args` happens to have, which the function leaves
uninitialised. -/
def raw_instr_nil (args : Fin 2 → Byte) : RawInstr := ⟨NIL, args⟩

/-- The function `instr_free` releases the payload of every instruction but
`HALT`; the value returned is the `instr` of the caller afterwards, whose pointer
then refers to a freed payload. -/
def instr_free (instr : Instr) : Instr :=
  if instr.kind ≠ HALT then { instr with inner := .dangling } else instr

/-- The function `fetch`, returning the memory it leaves behind and the new
contents of the out-parameter `raw_instr`. The machine state is passed by value,
so the copy of the caller cannot change. -/
def fetch (vm : Vm) (mem : Mem) (raw_instr : RawInstr) : Except Fault (Mem × RawInstr) :=
  -- uint16_t instr_idx = vm.regs[PC];
  match reg_read vm PC with
  | .error f => .error f
  | .ok pc =>
    let instr_idx : Nat := pc.val % 65536
    if instr_idx ≥ 256 then .error .fetchOutOfBounds
    else
      -- raw_instr->kind = mem[instr_idx];
      match mem_read mem instr_idx with
      | .error f => .error f
      | .ok kind =>
        if kind = LOAD ∨ kind = STORE ∨ kind = ADD ∨ kind = SUB then
          -- TODO: overflow check
          match mem_read mem (instr_idx + 1) with
          | .error f => .error f
          | .ok a0 =>
            match mem_read mem (instr_idx + 2) with
            | .error f => .error f
            | .ok a1 => .ok (mem, ⟨kind, fun i => if i.val = 0 then a0 else a1⟩)
        else .ok (mem, { raw_instr with kind := kind })

/-- The read `mem[idx]` as the compiled program performs it, with no check: an
index in the array reads the array, and an index past its end reads the byte that
happens to lie that far behind the array, `past (idx - 256)`. -/
def mem_read_unchecked (past : Nat → Byte) (mem : Mem) (idx : Nat) : Byte :=
  if h : idx < 256 then mem ⟨idx, h⟩ else past (idx - 256)

/-- The function `fetch` with its reads taken as the compiled program performs
them: the statements are those of `fetch`, but the unchecked operand reads always
return a byte, so that the function returns whenever the C function does. The
bytes behind the array are not known: `past` stands for them. -/
def fetch_unchecked (past : Nat → Byte) (vm : Vm) (mem : Mem) (raw_instr : RawInstr) :
    Except Fault (Mem × RawInstr) :=
  -- uint16_t instr_idx = vm.regs[PC];
  match reg_read vm PC with
  | .error f => .error f
  | .ok pc =>
    let instr_idx : Nat := pc.val % 65536
    if instr_idx ≥ 256 then .error .fetchOutOfBounds
    else
      -- raw_instr->kind = mem[instr_idx];
      let kind := mem_read_unchecked past mem instr_idx
      if kind = LOAD ∨ kind = STORE ∨ kind = ADD ∨ kind = SUB then
        -- TODO: overflow check
        .ok (mem, ⟨kind, fun i =>
          if i.val = 0 then mem_read_unchecked past mem (instr_idx + 1)
          else mem_read_unchecked past mem (instr_idx + 2)⟩)
      else .ok (mem, { raw_instr with kind := kind })

/-- The function `decode`; `instr` is the previous contents of the
out-parameter, of which `HALT` keeps the pointer `inner`. -/
def decode (raw_instr : RawInstr) (instr : Instr) : Except Fault Instr :=
  let kind := raw_instr.kind
  if kind = LOAD then .ok ⟨kind, .load ⟨raw_instr.args 0, raw_instr.args 1⟩⟩
  else if kind = STORE then .ok ⟨kind, .store ⟨raw_instr.args 0, raw_instr.args 1⟩⟩
  else if kind = ADD then .ok ⟨kind, .add ⟨raw_instr.args 0, raw_instr.args 1⟩⟩
  else if kind = SUB then .ok ⟨kind, .sub ⟨raw_instr.args 0, raw_instr.args 1⟩⟩
  else if kind = HALT then .ok ⟨kind, instr.inner⟩
  else .error (.decodeUnknown kind)

/-- The last statement of `execute`: `vm->regs[PC] += instr_count`. -/
def advance (vm : Vm) (instr_count : Byte) : Except Fault Vm :=
  match reg_read vm PC with
  | .error f => .error f
  | .ok pc => reg_write vm PC (to_u8 ((pc.val : Int) + (instr_count.val : Int)))

/-- The function `execute`, returning the machine state and the memory it
leaves behind. -/
def execute (vm : Vm) (instr : Instr) (mem : Mem) : Except Fault (Vm × Mem) :=
  if instr.kind = LOAD then
    match instr.inner with
    | .load load =>
      -- vm->regs[load->reg] = mem[load->addr];
      match mem_read mem load.addr.val with
      | .error f => .error f
      | .ok v =>
        match reg_write vm load.reg.val v with
        | .error f => .error f
        | .ok vm1 =>
          match advance vm1 3 with
          | .error f => .error f
          | .ok vm2 => .ok (vm2, mem)
    | _ => .error .badPayload
  else if instr.kind = STORE then
    match instr.inner with
    | .store store =>
      -- mem[store->addr] = vm->regs[store->reg];
      match reg_read vm store.reg.val with
      | .error f => .error f
      | .ok v =>
        match mem_write mem store.addr.val v with
        | .error f => .error f
        | .ok mem1 =>
          match advance vm 3 with
          | .error f => .error f
          | .ok vm2 => .ok (vm2, mem1)
    | _ => .error .badPayload
  else if instr.kind = ADD then
    match instr.inner with
    | .add add =>
      -- vm->regs[add->a] += vm->regs[add->b];
      match reg_read vm add.a.val with
      | .error f => .error f
      | .ok x =>
        match reg_read vm add.b.val with
        | .error f => .error f
        | .ok y =>
          match reg_write vm add.a.val (to_u8 ((x.val : Int) + (y.val : Int))) with
          | .error f => .error f
          | .ok vm1 =>
            match advance vm1 3 with
            | .error f => .error f
            | .ok vm2 => .ok (vm2, mem)
    | _ => .error .badPayload
  else if instr.kind = SUB then
    match instr.inner with
    | .sub sub =>
      -- vm->regs[sub->a] -= vm->regs[sub->b];
      match reg_read vm sub.a.val with
      | .error f => .error f
      | .ok x =>
        match reg_read vm sub.b.val with
        | .error f => .error f
        | .ok y =>
          match reg_write vm sub.a.val (to_u8 ((x.val : Int) - (y.val : Int))) with
          | .error f => .error f
          | .ok vm1 =>
            match advance vm1 3 with
            | .error f => .error f
            | .ok vm2 => .ok (vm2, mem)
    | _ => .error .badPayload
  else if instr.kind = HALT then
    -- no op, main loop exits
    match advance vm 1 with
    | .error f => .error f
    | .ok vm2 => .ok (vm2, mem)
  else .error (.executeUnknown instr.kind)

/-! ## The driver -/

/-- The local variables of `main`. -/
structure Locals where
  mem : Mem
  vm : Vm
  raw_instr : RawInstr
  instr : Instr

/-- The body of the loop of `main`: one fetch-decode-execute cycle. A failure
is returned with the machine state and memory of the moment it happens. -/
def cycle (s : Locals) : Except (Fault × Vm × Mem) Locals :=
  match fetch s.vm s.mem s.raw_instr with
  | .error f => .error (f, s.vm, s.mem)
  | .ok (mem0, raw) =>
    match decode raw s.instr with
    | .error f => .error (f, s.vm, mem0)
    | .ok instr =>
      match execute s.vm instr mem0 with
      | .error f => .error (f, s.vm, mem0)
      | .ok (vm1, mem1) =>
        .ok { mem := mem1, vm := vm1, raw_instr := raw, instr := instr_free instr }

/-- How a run of the loop of `main` ends. -/
inductive Outcome where
  /-- The loop condition became false after `cycles` cycles, with these locals. -/
  | exited (cycles : Nat) (s : Locals)
  /-- Cycle number `cycles + 1` failed. -/
  | fatal (cycles : Nat) (f : Fault) (vm : Vm) (mem : Mem)
  /-- The loop was still running when the fuel was used up. -/
  | out_of_fuel (cycles : Nat) (s : Locals)

/-- The loop `while (instr.kind != HALT) { ... }`, for at most `fuel` cycles;
`cycles` counts those already done. -/
def run : Nat → Nat → Locals → Outcome
  | fuel, cycles, s =>
    if s.instr.kind = HALT then .exited cycles s
    else
      match fuel with
      | 0 => .out_of_fuel cycles s
      | fuel1 + 1 =>
        match cycle s with
        | .error (f, vm, mem) => .fatal cycles f vm mem
        | .ok s1 => run fuel1 (cycles + 1) s1

/-- The memory image of `main`: eight bytes of data, then the instructions;
the rest of the array is zero. -/
def main_mem : Mem := fun i =>
  ([0x00, 0x03, 0x05, 0x00, 0x00, 0x00, 0x00, 0x00,
    0x01, 0x01, 0x01,
    0x01, 0x02, 0x02,
    0x03, 0x01, 0x02,
    0x02, 0x01, 0x00,
    0xff] : List Byte).getD i.val 0

/-- The local variables of `main` when its loop is reached. The variable
`instr` is not initialised and the array `args` of `raw_instr` neither: `instr0`
and `args0` stand for what they happen to hold. -/
def main_locals (instr0 : Instr) (args0 : Fin 2 → Byte) : Locals :=
  { mem := main_mem, vm := vm_init, raw_instr := raw_instr_nil args0, instr := instr0 }

/-- The function `main` up to the end of its loop. -/
def main (instr0 : Instr) (args0 : Fin 2 → Byte) (fuel : Nat) : Outcome :=
  run fuel 0 (main_locals instr0 args0)

/-! ## Observations

Projections of results, used to state properties of concrete runs. -/

/-- Register `idx` after a call of `execute` that returns. -/
def reg_after (r : Except Fault (Vm × Mem)) (idx : Fin 3) : Option Byte :=
  match r with
  | .ok (vm, _) => some (vm.regs idx)
  | .error _ => none

/-- The program counter after a cycle that completes. -/
def pc_after (r : Except (Fault × Vm × Mem) Locals) : Option Byte :=
  match r with
  | .ok s => some (s.vm.regs 0)
  | .error _ => none

/-- The run ended by leaving the loop after `c` cycles, in a state satisfying `P`. -/
def exited_with (o : Outcome) (c : Nat) (P : Locals → Prop) : Prop :=
  match o with
  | .exited c1 s => c1 = c ∧ P s
  | _ => False

instance exited_with_decidable (o : Outcome) (c : Nat) (P : Locals → Prop) [DecidablePred P] :
    Decidable (exited_with o c P) := by
  unfold exited_with
  cases o <;> infer_instance

attribute [irreducible] exited_with

/-! ## A program that never stops -/

/-- A memory image whose program never stops: at 8 a Load into register 0 of
`mem[3] = 250`, which sends the program counter to 253; at 253 a Load into
register 1, after which the program counter is 0; at 0 a Load into register 0 of
`mem[4] = 5`, which sends the program counter back to 8. -/
def wrap_mem : Mem := fun i =>
  if i.val = 0 then 0x01 else if i.val = 1 then 0x00 else if i.val = 2 then 0x04
  else if i.val = 3 then 250 else if i.val = 4 then 5
  else if i.val = 8 then 0x01 else if i.val = 9 then 0x00 else if i.val = 10 then 0x03
  else if i.val = 253 then 0x01 else if i.val = 254 then 0x01 else if i.val = 255 then 0x01
  else 0

/-- The local variables of `main` if its memory image were `wrap_mem`. -/
def wrap_locals : Locals :=
  { mem := wrap_mem, vm := vm_init, raw_instr := raw_instr_nil (fun _ => 0),
    instr := ⟨NIL, .dangling⟩ }

/-- The loop started in `s` is still running after any number of cycles. -/
def runs_forever (s : Locals) : Prop :=
  ∀ fuel, ∃ s1, run fuel 0 s = .out_of_fuel fuel s1

/-- The program counter with which a run that used up its fuel would go on. -/
def pc_at (o : Outcome) : Option Byte :=
  match o with
  | .out_of_fuel _ s => some (s.vm.regs 0)
  | _ => none

/-! # Theorems -/

/-! ## Helper lemmas -/

theorem to_u8_add_val (a b : Nat) : (to_u8 ((a : Int) + (b : Int))).val = (a + b) % 256 := by
  simp only [to_u8]; omega

theorem to_u8_sub_val (a b : Nat) :
    ((to_u8 ((a : Int) - (b : Int))).val : Int) = ((a : Int) - (b : Int)) % 256 := by
  simp only [to_u8]; omega

theorem reg_cases (r : Byte) (hr : r.val < 3) : r = 0 ∨ r = 1 ∨ r = 2 := by
  have h : r.val = 0 ∨ r.val = 1 ∨ r.val = 2 := by omega
  rcases h with h | h | h
  · exact Or.inl (Fin.ext h)
  · exact Or.inr (Or.inl (Fin.ext h))
  · exact Or.inr (Or.inr (Fin.ext h))

theorem advance_eq (vm : Vm) (n : Byte) :
    advance vm n =
      .ok ⟨Function.update vm.regs 0 (to_u8 (((vm.regs 0).val : Int) + (n.val : Int)))⟩ := by
  simp [advance, reg_read, reg_write, PC]

theorem execute_load_eq (vm : Vm) (mem : Mem) (r a : Byte) (hr : r.val < 3) :
    execute vm ⟨LOAD, .load ⟨r, a⟩⟩ mem =
      .ok (⟨Function.update (Function.update vm.regs ⟨r.val, hr⟩ (mem a)) 0
        (to_u8 (((Function.update vm.regs ⟨r.val, hr⟩ (mem a) 0).val : Int)
          + ((3 : Byte).val : Int)))⟩, mem) := by
  simp [execute, mem_read, reg_write, hr, advance_eq]

theorem execute_store_eq (vm : Vm) (mem : Mem) (r a : Byte) (hr : r.val < 3) :
    execute vm ⟨STORE, .store ⟨r, a⟩⟩ mem =
      .ok (⟨Function.update vm.regs 0 (to_u8 (((vm.regs 0).val : Int) + ((3 : Byte).val : Int)))⟩,
        Function.update mem a (vm.regs ⟨r.val, hr⟩)) := by
  simp [execute, mem_write, reg_read, hr, advance_eq, STORE, LOAD]

theorem execute_add_eq (vm : Vm) (mem : Mem) (a b : Byte) (ha : a.val < 3) (hb : b.val < 3) :
    execute vm ⟨ADD, .add ⟨a, b⟩⟩ mem =
      .ok (⟨Function.update
          (Function.update vm.regs ⟨a.val, ha⟩
            (to_u8 (((vm.regs ⟨a.val, ha⟩).val : Int) + ((vm.regs ⟨b.val, hb⟩).val : Int)))) 0
          (to_u8 (((Function.update vm.regs ⟨a.val, ha⟩
            (to_u8 (((vm.regs ⟨a.val, ha⟩).val : Int) + ((vm.regs ⟨b.val, hb⟩).val : Int)))
              0).val : Int)
            + ((3 : Byte).val : Int)))⟩, mem) := by
  simp [execute, reg_write, reg_read, ha, hb, advance_eq, STORE, LOAD, ADD]

theorem execute_sub_eq (vm : Vm) (mem : Mem) (a b : Byte) (ha : a.val < 3) (hb : b.val < 3) :
    execute vm ⟨SUB, .sub ⟨a, b⟩⟩ mem =
      .ok (⟨Function.update
          (Function.update vm.regs ⟨a.val, ha⟩
            (to_u8 (((vm.regs ⟨a.val, ha⟩).val : Int) - ((vm.regs ⟨b.val, hb⟩).val : Int)))) 0
          (to_u8 (((Function.update vm.regs ⟨a.val, ha⟩
            (to_u8 (((vm.regs ⟨a.val, ha⟩).val : Int) - ((vm.regs ⟨b.val, hb⟩).val : Int)))
              0).val : Int)
            + ((3 : Byte).val : Int)))⟩, mem) := by
  simp [execute, reg_write, reg_read, ha, hb, advance_eq, STORE, LOAD, ADD, SUB]

theorem execute_halt_eq (vm : Vm) (mem : Mem) (p : Inner) :
    execute vm ⟨HALT, p⟩ mem =
      .ok (⟨Function.update vm.regs 0 (to_u8 (((vm.regs 0).val : Int) + ((1 : Byte).val : Int)))⟩,
        mem) := by
  simp [execute, advance_eq, STORE, LOAD, ADD, SUB, HALT]

theorem fetch_three_byte (vm : Vm) (mem : Mem) (raw : RawInstr) (hp : (vm.regs 0).val ≤ 253)
    (hk : mem (vm.regs 0) = LOAD ∨ mem (vm.regs 0) = STORE ∨ mem (vm.regs 0) = ADD ∨
      mem (vm.regs 0) = SUB) :
    fetch vm mem raw =
      .ok (mem, ⟨mem (vm.regs 0), fun i =>
        if i.val = 0 then mem ⟨(vm.regs 0).val + 1, by omega⟩
        else mem ⟨(vm.regs 0).val + 2, by omega⟩⟩) := by
  have h1 : (vm.regs 0).val % 65536 = (vm.regs 0).val := by omega
  have h2 : (vm.regs 0).val + 1 < 256 := by omega
  have h3 : (vm.regs 0).val + 2 < 256 := by omega
  simp [fetch, reg_read, PC, mem_read, h1, h2, h3, hk]

theorem fetch_one_byte (vm : Vm) (mem : Mem) (raw : RawInstr)
    (hk : ¬ (mem (vm.regs 0) = LOAD ∨ mem (vm.regs 0) = STORE ∨ mem (vm.regs 0) = ADD ∨
      mem (vm.regs 0) = SUB)) :
    fetch vm mem raw = .ok (mem, { raw with kind := mem (vm.regs 0) }) := by
  have h1 : (vm.regs 0).val % 65536 = (vm.regs 0).val := by omega
  simp [fetch, reg_read, PC, mem_read, h1, hk]

theorem decode_load_eq (args : Fin 2 → Byte) (instr : Instr) :
    decode ⟨LOAD, args⟩ instr = .ok ⟨LOAD, .load ⟨args 0, args 1⟩⟩ := rfl

theorem decode_store_eq (args : Fin 2 → Byte) (instr : Instr) :
    decode ⟨STORE, args⟩ instr = .ok ⟨STORE, .store ⟨args 0, args 1⟩⟩ := rfl

theorem decode_add_eq (args : Fin 2 → Byte) (instr : Instr) :
    decode ⟨ADD, args⟩ instr = .ok ⟨ADD, .add ⟨args 0, args 1⟩⟩ := rfl

theorem decode_sub_eq (args : Fin 2 → Byte) (instr : Instr) :
    decode ⟨SUB, args⟩ instr = .ok ⟨SUB, .sub ⟨args 0, args 1⟩⟩ := rfl

theorem decode_halt_eq (args : Fin 2 → Byte) (instr : Instr) :
    decode ⟨HALT, args⟩ instr = .ok ⟨HALT, instr.inner⟩ := rfl

theorem instr_free_kind (instr : Instr) : (instr_free instr).kind = instr.kind := by
  unfold instr_free
  split_ifs <;> rfl

theorem cycle_of_parts (s : Locals) (raw : RawInstr) (instr : Instr) (vm1 : Vm) (mem1 : Mem)
    (hf : fetch s.vm s.mem s.raw_instr = .ok (s.mem, raw)) (hd : decode raw s.instr = .ok instr)
    (he : execute s.vm instr s.mem = .ok (vm1, mem1)) :
    cycle s = .ok { mem := mem1, vm := vm1, raw_instr := raw, instr := instr_free instr } := by
  simp [cycle, hf, hd, he]

theorem advance_pc_val (regs : Fin 3 → Byte) (n : Byte) :
    (Function.update regs 0 (to_u8 (((regs 0).val : Int) + (n.val : Int))) 0).val =
      ((regs 0).val + n.val) % 256 := by
  rw [Function.update_same]
  exact to_u8_add_val _ _

theorem pc_after_write (regs : Fin 3 → Byte) (i : Fin 3) (v : Byte) (hi : i ≠ 0) :
    (Function.update (Function.update regs i v) 0
      (to_u8 (((Function.update regs i v 0).val : Int) + ((3 : Byte).val : Int))) 0).val =
      ((regs 0).val + 3) % 256 := by
  rw [Function.update_same, Function.update_noteq (Ne.symm hi)]
  exact to_u8_add_val _ 3

theorem run_halted (fuel c : Nat) (s : Locals) (h : s.instr.kind = HALT) :
    run fuel c s = .exited c s := by
  unfold run
  simp [h]

theorem run_step (fuel c : Nat) (s s1 : Locals) (h : s.instr.kind ≠ HALT)
    (hc : cycle s = .ok s1) : run (fuel + 1) c s = run fuel (c + 1) s1 := by
  rw [run]
  simp [h, hc]

theorem run_exited_mono (n : Nat) : ∀ (c : Nat) (s : Locals) (c1 : Nat) (s1 : Locals),
    run n c s = .exited c1 s1 → ∀ m, n ≤ m → run m c s = .exited c1 s1 := by
  induction n with
  | zero =>
    intro c s c1 s1 h m _
    by_cases hk : s.instr.kind = HALT
    · rw [run_halted _ _ _ hk] at h ⊢
      exact h
    · unfold run at h
      simp [hk] at h
  | succ n ih =>
    intro c s c1 s1 h m hm
    by_cases hk : s.instr.kind = HALT
    · rw [run_halted _ _ _ hk] at h ⊢
      exact h
    · obtain ⟨m1, rfl⟩ : ∃ m1, m = m1 + 1 := ⟨m - 1, by omega⟩
      cases hc : cycle s with
      | error e =>
        rw [run] at h
        simp [hk, hc] at h
      | ok s2 =>
        rw [run_step _ _ _ _ hk hc] at h ⊢
        exact ih _ _ _ _ h m1 (by omega)

/-! ## C1: the program of `main` -/

theorem run_fail (fuel c : Nat) (s : Locals) (e : Fault × Vm × Mem) (h : s.instr.kind ≠ HALT)
    (hc : cycle s = .error e) : run (fuel + 1) c s = .fatal c e.1 e.2.1 e.2.2 := by
  rw [run]
  simp [h, hc]

theorem exited_with_elim (o : Outcome) (c : Nat) (P : Locals → Prop) (h : exited_with o c P) :
    ∃ s, o = .exited c s ∧ P s := by
  unfold exited_with at h
  cases o with
  | exited c1 s =>
    obtain ⟨hc, hP⟩ := h
    exact ⟨s, by rw [hc], hP⟩
  | fatal c1 f vm mem => exact h.elim
  | out_of_fuel c1 s => exact h.elim

theorem main_first_cycle (instr0 : Instr) (args0 : Fin 2 → Byte) :
    cycle (main_locals instr0 args0) = cycle (main_locals ⟨NIL, .dangling⟩ (fun _ => 0)) := by
  rfl

theorem main_closed_run :
    exited_with (run 5 0 (main_locals ⟨NIL, .dangling⟩ (fun _ => 0))) 5
      (fun s => s.instr.kind = HALT ∧ s.mem 0 = 8 ∧
        (∀ i : Nat, (h : i < 256) → i ≠ 0 → s.mem ⟨i, h⟩ = main_mem ⟨i, h⟩) ∧
        s.vm.regs 1 = 8) := by
  decide!

theorem main_run_five (instr0 : Instr) (args0 : Fin 2 → Byte) (hloop : instr0.kind ≠ HALT) :
    exited_with (run 5 0 (main_locals instr0 args0)) 5
      (fun s => s.instr.kind = HALT ∧ s.mem 0 = 8 ∧
        (∀ i : Nat, (h : i < 256) → i ≠ 0 → s.mem ⟨i, h⟩ = main_mem ⟨i, h⟩) ∧
        s.vm.regs 1 = 8) := by
  have h := main_closed_run
  have hn : (main_locals ⟨NIL, .dangling⟩ (fun _ => 0)).instr.kind ≠ HALT := by decide
  have hl : (main_locals instr0 args0).instr.kind ≠ HALT := hloop
  cases hc : cycle (main_locals ⟨NIL, .dangling⟩ (fun _ => 0)) with
  | error e =>
    rw [run_fail 4 0 _ e hl (by rw [main_first_cycle]; exact hc)]
    rw [run_fail 4 0 _ e hn hc] at h
    exact h
  | ok s1 =>
    rw [run_step 4 0 _ s1 hl (by rw [main_first_cycle]; exact hc)]
    rw [run_step 4 0 _ s1 hn hc] at h
    exact h

/-- C1. Started from `vm_init` (PC = 8, R1 = R2 = 0) on the memory image of
`main`, and given that the loop is entered (the uninitialised `instr.kind` is not
`HALT`), the loop stops after exactly 5 cycles on the Halt instruction, with no
fatal error, whenever it is given fuel for at least 5 cycles; the final memory
has 8 in cell 0 and its initial value in every other cell, and R1 is 8. -/
theorem main_end_to_end (instr0 : Instr) (args0 : Fin 2 → Byte) (fuel : Nat)
    (hloop : instr0.kind ≠ HALT) (hfuel : 5 ≤ fuel) :
    vm_init.regs 0 = 8 ∧ vm_init.regs 1 = 0 ∧ vm_init.regs 2 = 0 ∧
    ∃ s, main instr0 args0 fuel = .exited 5 s ∧ s.instr.kind = HALT ∧ s.mem 0 = 8 ∧
      (∀ i : Fin 256, i ≠ 0 → s.mem i = main_mem i) ∧ s.vm.regs 1 = 8 := by
  refine ⟨rfl, rfl, rfl, ?_⟩
  obtain ⟨s, hs, hk, h0, hframe, hr1⟩ :=
    exited_with_elim _ _ _ (main_run_five instr0 args0 hloop)
  refine ⟨s, ?_, hk, h0, ?_, hr1⟩
  · unfold main
    exact run_exited_mono 5 _ _ _ _ hs fuel hfuel
  · intro i hi
    exact hframe i.val i.isLt (fun e => hi (Fin.ext e))

theorem main_end_to_end_witness :
    (⟨NIL, .dangling⟩ : Instr).kind ≠ HALT ∧ 5 ≤ 5 ∧
    vm_init.regs 0 = 8 ∧ vm_init.regs 1 = 0 ∧ vm_init.regs 2 = 0 ∧
    ∃ s, main ⟨NIL, .dangling⟩ (fun _ => 0) 5 = .exited 5 s ∧ s.instr.kind = HALT ∧
      s.mem 0 = 8 ∧ (∀ i : Fin 256, i ≠ 0 → s.mem i = main_mem i) ∧ s.vm.regs 1 = 8 :=
  ⟨by decide, by decide,
    main_end_to_end ⟨NIL, .dangling⟩ (fun _ => 0) 5 (by decide) (by decide)⟩

/-! ## C2 to C5: the semantics of `execute` -/

/-- C2, as stated, fails for register index 0: from `vm_init` with the memory of
`main`, Load{register = 0, address = 1} leaves 6 in slot 0, while `memory[1]` is
3, because `execute` adds the instruction length to slot 0 afterwards. -/
theorem load_pc_slot_counterexample :
    reg_after (execute vm_init ⟨LOAD, .load ⟨0, 1⟩⟩ main_mem) 0 = some 6 ∧
      main_mem 1 = 3 := by
  decide

/-- C2, amended. For every machine state, memory, address `a` and register index
`r` in {0, 1, 2}, `execute` of Load{register = r, address = a} returns, leaves
the memory unchanged, and leaves in slot `r` the value `memory[a]` when `r` is 1
or 2, and `(memory[a] + 3) mod 256` when `r` is 0, the program-counter slot. -/
theorem load_semantics (vm : Vm) (mem : Mem) (r a : Byte) (hr : r.val < 3) :
    ∃ vm1, execute vm ⟨LOAD, .load ⟨r, a⟩⟩ mem = .ok (vm1, mem) ∧
      (r.val ≠ PC → reg_read vm1 r.val = .ok (mem a)) ∧
      (r.val = PC → ∃ v, reg_read vm1 r.val = .ok v ∧ v.val = ((mem a).val + 3) % 256) := by
  refine ⟨_, execute_load_eq vm mem r a hr, ?_, ?_⟩
  · rcases reg_cases r hr with h | h | h <;> subst h <;>
      simp [reg_read, PC, Function.update_apply]
  · rcases reg_cases r hr with h | h | h <;> subst h <;>
      simp [reg_read, PC, Function.update_apply]
    exact to_u8_add_val _ 3

theorem load_semantics_witness :
    (0 : Byte).val < 3 ∧
    ∃ vm1, execute vm_init ⟨LOAD, .load ⟨0, 1⟩⟩ main_mem = .ok (vm1, main_mem) ∧
      ((0 : Byte).val ≠ PC → reg_read vm1 (0 : Byte).val = .ok (main_mem 1)) ∧
      ((0 : Byte).val = PC →
        ∃ v, reg_read vm1 (0 : Byte).val = .ok v ∧ v.val = ((main_mem 1).val + 3) % 256) :=
  ⟨by decide, load_semantics vm_init main_mem 0 1 (by decide)⟩

/-- C3. For every machine state, memory, address `a` and register index `r` in
{0, 1, 2}, `execute` of Store{register = r, address = a} returns; afterwards
`memory[a]` is the value slot `r` had before, every other memory cell is
unchanged, and R1 and R2 are unchanged. -/
theorem store_semantics (vm : Vm) (mem : Mem) (r a : Byte) (hr : r.val < 3) :
    ∃ vm1 mem1 v, execute vm ⟨STORE, .store ⟨r, a⟩⟩ mem = .ok (vm1, mem1) ∧
      reg_read vm r.val = .ok v ∧ mem1 a = v ∧
      (∀ i : Fin 256, i ≠ a → mem1 i = mem i) ∧
      reg_read vm1 R1 = reg_read vm R1 ∧ reg_read vm1 R2 = reg_read vm R2 := by
  refine ⟨_, _, vm.regs ⟨r.val, hr⟩, execute_store_eq vm mem r a hr, ?_, ?_, ?_, ?_, ?_⟩
  · simp [reg_read, hr]
  · simp
  · intro i hi
    simp [Function.update_apply, hi]
  · simp [reg_read, R1, Function.update_apply]
  · simp [reg_read, R2, Function.update_apply]

theorem store_semantics_witness :
    (1 : Byte).val < 3 ∧
    ∃ vm1 mem1 v, execute vm_init ⟨STORE, .store ⟨1, 0⟩⟩ main_mem = .ok (vm1, mem1) ∧
      reg_read vm_init (1 : Byte).val = .ok v ∧ mem1 0 = v ∧
      (∀ i : Fin 256, i ≠ 0 → mem1 i = main_mem i) ∧
      reg_read vm1 R1 = reg_read vm_init R1 ∧ reg_read vm1 R2 = reg_read vm_init R2 :=
  ⟨by decide, store_semantics vm_init main_mem 1 0 (by decide)⟩

/-- C4. For every machine state, every `dest` in {1, 2} and every `src` in
{0, 1, 2} (`dest = src` allowed), `execute` of Add{dest, src} returns; afterwards
register `dest` is `(old dest + old src) mod 256`, the other general-purpose
register is unchanged and the memory is unchanged; in particular 250 and 10 give
4. -/
theorem add_wraparound (vm : Vm) (mem : Mem) (dest src : Byte)
    (hd : dest.val = R1 ∨ dest.val = R2) (hs : src.val < 3) :
    ∃ vm1 x y v, execute vm ⟨ADD, .add ⟨dest, src⟩⟩ mem = .ok (vm1, mem) ∧
      reg_read vm dest.val = .ok x ∧ reg_read vm src.val = .ok y ∧
      reg_read vm1 dest.val = .ok v ∧ v.val = (x.val + y.val) % 256 ∧
      (∀ o, (o = R1 ∨ o = R2) → o ≠ dest.val → reg_read vm1 o = reg_read vm o) ∧
      (x.val = 250 → y.val = 10 → v.val = 4) := by
  have hd3 : dest.val < 3 := by rcases hd with h | h <;> simp [h, R1, R2]
  refine ⟨_, vm.regs ⟨dest.val, hd3⟩, vm.regs ⟨src.val, hs⟩,
    to_u8 (((vm.regs ⟨dest.val, hd3⟩).val : Int) + ((vm.regs ⟨src.val, hs⟩).val : Int)),
    execute_add_eq vm mem dest src hd3 hs, ?_, ?_, ?_, ?_, ?_, ?_⟩
  · simp [reg_read, hd3]
  · simp [reg_read, hs]
  · rcases hd with h | h <;> simp [reg_read, h, R1, R2, Function.update_apply, Fin.ext_iff]
  · exact to_u8_add_val _ _
  · intro o ho hne
    rcases hd with h | h <;> rcases ho with h2 | h2 <;> subst h2 <;>
      simp_all [reg_read, R1, R2, Function.update_apply, Fin.ext_iff]
  · intro hx hy
    rw [to_u8_add_val, hx, hy]

theorem add_wraparound_witness :
    ((1 : Byte).val = R1 ∨ (1 : Byte).val = R2) ∧ (1 : Byte).val < 3 ∧
    ∃ vm1 x y v, execute ⟨fun _ => 200⟩ ⟨ADD, .add ⟨1, 1⟩⟩ main_mem = .ok (vm1, main_mem) ∧
      reg_read ⟨fun _ => 200⟩ (1 : Byte).val = .ok x ∧
      reg_read ⟨fun _ => 200⟩ (1 : Byte).val = .ok y ∧
      reg_read vm1 (1 : Byte).val = .ok v ∧ v.val = (x.val + y.val) % 256 ∧
      (∀ o, (o = R1 ∨ o = R2) → o ≠ (1 : Byte).val →
        reg_read vm1 o = reg_read ⟨fun _ => 200⟩ o) ∧
      (x.val = 250 → y.val = 10 → v.val = 4) :=
  ⟨by decide, by decide, add_wraparound ⟨fun _ => 200⟩ main_mem 1 1 (by decide) (by decide)⟩

/-- C5. For every machine state, every `dest` in {1, 2} and every `src` in
{0, 1, 2} (`dest = src` allowed), `execute` of Sub{dest, src} returns; afterwards
register `dest` is `(old dest - old src) mod 256`, a value in 0..255 also when
the difference is negative, the other general-purpose register is unchanged and
the memory is unchanged. -/
theorem sub_wraparound (vm : Vm) (mem : Mem) (dest src : Byte)
    (hd : dest.val = R1 ∨ dest.val = R2) (hs : src.val < 3) :
    ∃ vm1 x y v, execute vm ⟨SUB, .sub ⟨dest, src⟩⟩ mem = .ok (vm1, mem) ∧
      reg_read vm dest.val = .ok x ∧ reg_read vm src.val = .ok y ∧
      reg_read vm1 dest.val = .ok v ∧
      (v.val : Int) = ((x.val : Int) - (y.val : Int)) % 256 ∧
      (∀ o, (o = R1 ∨ o = R2) → o ≠ dest.val → reg_read vm1 o = reg_read vm o) := by
  have hd3 : dest.val < 3 := by rcases hd with h | h <;> simp [h, R1, R2]
  refine ⟨_, vm.regs ⟨dest.val, hd3⟩, vm.regs ⟨src.val, hs⟩,
    to_u8 (((vm.regs ⟨dest.val, hd3⟩).val : Int) - ((vm.regs ⟨src.val, hs⟩).val : Int)),
    execute_sub_eq vm mem dest src hd3 hs, ?_, ?_, ?_, ?_, ?_⟩
  · simp [reg_read, hd3]
  · simp [reg_read, hs]
  · rcases hd with h | h <;> simp [reg_read, h, R1, R2, Function.update_apply, Fin.ext_iff]
  · exact to_u8_sub_val _ _
  · intro o ho hne
    rcases hd with h | h <;> rcases ho with h2 | h2 <;> subst h2 <;>
      simp_all [reg_read, R1, R2, Function.update_apply, Fin.ext_iff]

theorem sub_wraparound_witness :
    ((1 : Byte).val = R1 ∨ (1 : Byte).val = R2) ∧ (0 : Byte).val < 3 ∧
    ∃ vm1 x y v, execute vm_init ⟨SUB, .sub ⟨1, 0⟩⟩ main_mem = .ok (vm1, main_mem) ∧
      reg_read vm_init (1 : Byte).val = .ok x ∧ reg_read vm_init (0 : Byte).val = .ok y ∧
      reg_read vm1 (1 : Byte).val = .ok v ∧
      (v.val : Int) = ((x.val : Int) - (y.val : Int)) % 256 ∧
      (∀ o, (o = R1 ∨ o = R2) → o ≠ (1 : Byte).val → reg_read vm1 o = reg_read vm_init o) :=
  ⟨by decide, by decide, sub_wraparound vm_init main_mem 1 0 (by decide) (by decide)⟩

/-! ## C6 and C7: `decode` -/

/-- C6. For every raw instruction, `decode` ends in the fatal unknown-instruction
error exactly when the opcode byte is none of 0x01, 0x02, 0x03, 0x04, 0xFF, and
returns an instruction exactly when it is one of them; the reserved byte 0x00 is
rejected; the outcome is the same for every choice of operand bytes (and of the
previous contents of the out-parameter). -/
theorem decode_fails_iff_unknown (raw : RawInstr) (instr : Instr) :
    (decode raw instr = .error (.decodeUnknown raw.kind) ↔
      ¬ (raw.kind.val = 0x01 ∨ raw.kind.val = 0x02 ∨ raw.kind.val = 0x03 ∨
        raw.kind.val = 0x04 ∨ raw.kind.val = 0xFF)) ∧
    ((∃ i, decode raw instr = .ok i) ↔
      (raw.kind.val = 0x01 ∨ raw.kind.val = 0x02 ∨ raw.kind.val = 0x03 ∨
        raw.kind.val = 0x04 ∨ raw.kind.val = 0xFF)) ∧
    (∀ (args : Fin 2 → Byte) (instr1 : Instr),
      decode ⟨0x00, args⟩ instr1 = .error (.decodeUnknown 0x00)) ∧
    (∀ (args : Fin 2 → Byte) (instr1 : Instr),
      (decode ⟨raw.kind, args⟩ instr1 = .error (.decodeUnknown raw.kind) ↔
        decode raw instr = .error (.decodeUnknown raw.kind)) ∧
      ((∃ i, decode ⟨raw.kind, args⟩ instr1 = .ok i) ↔ ∃ i, decode raw instr = .ok i)) := by
  have key : ∀ (r : RawInstr) (j : Instr),
      (decode r j = .error (.decodeUnknown r.kind) ↔
        ¬ (r.kind.val = 0x01 ∨ r.kind.val = 0x02 ∨ r.kind.val = 0x03 ∨
          r.kind.val = 0x04 ∨ r.kind.val = 0xFF)) ∧
      ((∃ i, decode r j = .ok i) ↔
        (r.kind.val = 0x01 ∨ r.kind.val = 0x02 ∨ r.kind.val = 0x03 ∨
          r.kind.val = 0x04 ∨ r.kind.val = 0xFF)) := by
    intro r j
    have e1 : r.kind = LOAD ↔ r.kind.val = 0x01 := Fin.ext_iff
    have e2 : r.kind = STORE ↔ r.kind.val = 0x02 := Fin.ext_iff
    have e3 : r.kind = ADD ↔ r.kind.val = 0x03 := Fin.ext_iff
    have e4 : r.kind = SUB ↔ r.kind.val = 0x04 := Fin.ext_iff
    have e5 : r.kind = HALT ↔ r.kind.val = 0xFF := Fin.ext_iff
    simp only [decode, e1, e2, e3, e4, e5]
    split_ifs with h1 h2 h3 h4 h5 <;> simp [*]
  refine ⟨(key raw instr).1, (key raw instr).2, ?_, ?_⟩
  · intro args instr1
    rfl
  · intro args instr1
    exact ⟨(key ⟨raw.kind, args⟩ instr1).1.trans (key raw instr).1.symm,
      (key ⟨raw.kind, args⟩ instr1).2.trans (key raw instr).2.symm⟩

/-- C7. For every choice of operand bytes, `decode` of a raw instruction with
opcode Load, Store, Add or Sub returns the instruction of the same kind whose
first field (`reg`, `a`) is operand 0 and whose second field (`addr`, `b`) is
operand 1; with opcode Halt it returns Halt and attaches no payload: the pointer
`inner` keeps its previous contents, whatever the operand bytes are. -/
theorem decode_field_mapping (args : Fin 2 → Byte) (instr : Instr) :
    decode ⟨LOAD, args⟩ instr = .ok ⟨LOAD, .load ⟨args 0, args 1⟩⟩ ∧
    decode ⟨STORE, args⟩ instr = .ok ⟨STORE, .store ⟨args 0, args 1⟩⟩ ∧
    decode ⟨ADD, args⟩ instr = .ok ⟨ADD, .add ⟨args 0, args 1⟩⟩ ∧
    decode ⟨SUB, args⟩ instr = .ok ⟨SUB, .sub ⟨args 0, args 1⟩⟩ ∧
    decode ⟨HALT, args⟩ instr = .ok ⟨HALT, instr.inner⟩ ∧
    LOAD.val = 0x01 ∧ STORE.val = 0x02 ∧ ADD.val = 0x03 ∧ SUB.val = 0x04 ∧ HALT.val = 0xFF :=
  ⟨rfl, rfl, rfl, rfl, rfl, rfl, rfl, rfl, rfl, rfl⟩

/-! ## C8: `fetch` -/

theorem fetch_at_254 (vm : Vm) (mem : Mem) (raw : RawInstr) (hp : (vm.regs 0).val = 254)
    (hk : mem (vm.regs 0) = LOAD ∨ mem (vm.regs 0) = STORE ∨ mem (vm.regs 0) = ADD ∨
      mem (vm.regs 0) = SUB) :
    fetch vm mem raw = .error (.memOutOfBounds ((vm.regs 0).val + 2)) := by
  have h1 : (vm.regs 0).val % 65536 = (vm.regs 0).val := by omega
  have h2 : (vm.regs 0).val + 1 < 256 := by omega
  have h3 : ¬ (vm.regs 0).val + 2 < 256 := by omega
  simp [fetch, reg_read, PC, mem_read, h1, h2, h3, hk]

theorem fetch_at_255 (vm : Vm) (mem : Mem) (raw : RawInstr) (hp : (vm.regs 0).val = 255)
    (hk : mem (vm.regs 0) = LOAD ∨ mem (vm.regs 0) = STORE ∨ mem (vm.regs 0) = ADD ∨
      mem (vm.regs 0) = SUB) :
    fetch vm mem raw = .error (.memOutOfBounds ((vm.regs 0).val + 1)) := by
  have h1 : (vm.regs 0).val % 65536 = (vm.regs 0).val := by omega
  have h2 : ¬ (vm.regs 0).val + 1 < 256 := by omega
  simp [fetch, reg_read, PC, mem_read, h1, h2, hk]

theorem fetch_top (vm : Vm) (mem : Mem) (raw : RawInstr) (hp : 253 < (vm.regs 0).val)
    (hk : mem (vm.regs 0) = LOAD ∨ mem (vm.regs 0) = STORE ∨ mem (vm.regs 0) = ADD ∨
      mem (vm.regs 0) = SUB) :
    fetch vm mem raw = .error (.memOutOfBounds 256) := by
  have hpc : (vm.regs 0).val = 254 ∨ (vm.regs 0).val = 255 := by omega
  rcases hpc with h | h
  · rw [fetch_at_254 vm mem raw h hk, h]
  · rw [fetch_at_255 vm mem raw h hk, h]

theorem fetch_unchecked_three_byte (past : Nat → Byte) (vm : Vm) (mem : Mem) (raw : RawInstr)
    (hk : mem (vm.regs 0) = LOAD ∨ mem (vm.regs 0) = STORE ∨ mem (vm.regs 0) = ADD ∨
      mem (vm.regs 0) = SUB) :
    fetch_unchecked past vm mem raw =
      .ok (mem, ⟨mem (vm.regs 0), fun i =>
        if i.val = 0 then mem_read_unchecked past mem ((vm.regs 0).val + 1)
        else mem_read_unchecked past mem ((vm.regs 0).val + 2)⟩) := by
  have h1 : (vm.regs 0).val % 65536 = (vm.regs 0).val := by omega
  simp [fetch_unchecked, reg_read, PC, mem_read_unchecked, h1, hk]

theorem fetch_unchecked_one_byte (past : Nat → Byte) (vm : Vm) (mem : Mem) (raw : RawInstr)
    (hk : ¬ (mem (vm.regs 0) = LOAD ∨ mem (vm.regs 0) = STORE ∨ mem (vm.regs 0) = ADD ∨
      mem (vm.regs 0) = SUB)) :
    fetch_unchecked past vm mem raw = .ok (mem, { raw with kind := mem (vm.regs 0) }) := by
  have h1 : (vm.regs 0).val % 65536 = (vm.regs 0).val := by omega
  simp [fetch_unchecked, reg_read, PC, mem_read_unchecked, h1, hk]

theorem mem_read_unchecked_lt (past : Nat → Byte) (mem : Mem) (i : Nat) (h : i < 256) :
    mem_read_unchecked past mem i = mem ⟨i, h⟩ := by
  simp [mem_read_unchecked, h]

/-- Wherever all reads of `fetch` lie in the array, `fetch_unchecked` is `fetch`. -/
theorem fetch_unchecked_eq_fetch (past : Nat → Byte) (vm : Vm) (mem : Mem) (raw : RawInstr)
    (h : (vm.regs 0).val ≤ 253 ∨
      ¬ (mem (vm.regs 0) = LOAD ∨ mem (vm.regs 0) = STORE ∨ mem (vm.regs 0) = ADD ∨
        mem (vm.regs 0) = SUB)) :
    fetch vm mem raw = fetch_unchecked past vm mem raw := by
  by_cases hk : mem (vm.regs 0) = LOAD ∨ mem (vm.regs 0) = STORE ∨ mem (vm.regs 0) = ADD ∨
      mem (vm.regs 0) = SUB
  · have hp : (vm.regs 0).val ≤ 253 := by
      rcases h with h | h
      · exact h
      · exact (h hk).elim
    rw [fetch_three_byte vm mem raw hp hk, fetch_unchecked_three_byte past vm mem raw hk,
      mem_read_unchecked_lt past mem _ (by omega), mem_read_unchecked_lt past mem _ (by omega)]
  · rw [fetch_one_byte vm mem raw hk, fetch_unchecked_one_byte past vm mem raw hk]

/-- C8. For every memory and every machine state, and whatever bytes lie behind
the memory array, `fetch` (with its unchecked operand reads returning a byte, as
the compiled function does) returns a raw instruction whose opcode is
`memory[program_counter]`; when that opcode is Load, Store, Add or Sub and the
program counter is at most 253, the operands are `memory[program_counter + 1]`
and `memory[program_counter + 2]`; the memory `fetch` leaves behind is the one
it was given, and the machine state, passed by value, is not changed either.
Whenever the strict `fetch`, which stops at a read outside the array, returns at
all, it returns this same result, and it does return when the program counter is
at most 253 or the opcode is not one of the four. -/
theorem fetch_contract (past : Nat → Byte) (vm : Vm) (mem : Mem) (raw : RawInstr) :
    ∃ r, fetch_unchecked past vm mem raw = .ok (mem, r) ∧ r.kind = mem (vm.regs 0) ∧
      ((mem (vm.regs 0) = LOAD ∨ mem (vm.regs 0) = STORE ∨ mem (vm.regs 0) = ADD ∨
          mem (vm.regs 0) = SUB) ∧ (vm.regs 0).val ≤ 253 →
        mem_read mem ((vm.regs 0).val + 1) = .ok (r.args 0) ∧
        mem_read mem ((vm.regs 0).val + 2) = .ok (r.args 1)) ∧
      (∀ res, fetch vm mem raw = .ok res → res = (mem, r)) ∧
      ((vm.regs 0).val ≤ 253 ∨
          ¬ (mem (vm.regs 0) = LOAD ∨ mem (vm.regs 0) = STORE ∨ mem (vm.regs 0) = ADD ∨
            mem (vm.regs 0) = SUB) →
        fetch vm mem raw = .ok (mem, r)) := by
  have hagree : ∀ r, fetch_unchecked past vm mem raw = .ok (mem, r) →
      (∀ res, fetch vm mem raw = .ok res → res = (mem, r)) ∧
      ((vm.regs 0).val ≤ 253 ∨
          ¬ (mem (vm.regs 0) = LOAD ∨ mem (vm.regs 0) = STORE ∨ mem (vm.regs 0) = ADD ∨
            mem (vm.regs 0) = SUB) →
        fetch vm mem raw = .ok (mem, r)) := by
    intro r hr
    have hin : (vm.regs 0).val ≤ 253 ∨
        ¬ (mem (vm.regs 0) = LOAD ∨ mem (vm.regs 0) = STORE ∨ mem (vm.regs 0) = ADD ∨
          mem (vm.regs 0) = SUB) → fetch vm mem raw = .ok (mem, r) := by
      intro h
      rw [fetch_unchecked_eq_fetch past vm mem raw h, hr]
    refine ⟨?_, hin⟩
    intro res hres
    by_cases h : (vm.regs 0).val ≤ 253 ∨
        ¬ (mem (vm.regs 0) = LOAD ∨ mem (vm.regs 0) = STORE ∨ mem (vm.regs 0) = ADD ∨
          mem (vm.regs 0) = SUB)
    · rw [hin h] at hres
      simp only [Except.ok.injEq] at hres
      exact hres.symm
    · rw [not_or, not_not] at h
      rw [fetch_top vm mem raw (by omega) h.2] at hres
      exact absurd hres (by simp)
  by_cases hk : mem (vm.regs 0) = LOAD ∨ mem (vm.regs 0) = STORE ∨ mem (vm.regs 0) = ADD ∨
      mem (vm.regs 0) = SUB
  · have hu := fetch_unchecked_three_byte past vm mem raw hk
    refine ⟨_, hu, rfl, ?_, hagree _ hu⟩
    rintro ⟨_, hp⟩
    have h2 : (vm.regs 0).val + 1 < 256 := by omega
    have h3 : (vm.regs 0).val + 2 < 256 := by omega
    simp [mem_read, mem_read_unchecked, h2, h3]
  · have hu := fetch_unchecked_one_byte past vm mem raw hk
    exact ⟨_, hu, rfl, fun h => (hk h.1).elim, hagree _ hu⟩

/-! ## C9 and C10: one cycle -/

/-- C9, as stated, fails for a register operand 0: from `vm_init` with the
memory of `main` in which cell 9 is set to 0, the instruction at 8 is
Load{register = 0, address = 1}, and after the cycle the program counter is
`memory[1] + 3 = 6`, not `8 + 3 = 11`. -/
theorem fixed_width_counterexample :
    pc_after (cycle ⟨Function.update main_mem 9 0, vm_init, raw_instr_nil (fun _ => 0),
      ⟨NIL, .dangling⟩⟩) = some 6 ∧
    Function.update main_mem 9 0 8 = LOAD ∧ Function.update main_mem 9 0 9 = 0 ∧
    Function.update main_mem 9 0 10 = 1 ∧ vm_init.regs 0 = 8 := by
  decide

/-- C9, amended. For every memory and machine state with the program counter at
`p <= 253`, where `memory[p]` is a Load, Store, Add or Sub opcode whose register
operands are in {0, 1, 2} and whose written register (the register of a Load,
the `dest` of an Add or Sub) is 1 or 2, one full fetch-decode-execute cycle
completes and leaves the program counter at `(p + 3) mod 256`. -/
theorem fixed_width (s : Locals) (a0 a1 : Byte)
    (hp : (s.vm.regs 0).val ≤ 253)
    (hk : s.mem (s.vm.regs 0) = LOAD ∨ s.mem (s.vm.regs 0) = STORE ∨
      s.mem (s.vm.regs 0) = ADD ∨ s.mem (s.vm.regs 0) = SUB)
    (h0 : mem_read s.mem ((s.vm.regs 0).val + 1) = .ok a0)
    (h1 : mem_read s.mem ((s.vm.regs 0).val + 2) = .ok a1)
    (hw : s.mem (s.vm.regs 0) = STORE ∧ a0.val < 3 ∨
      s.mem (s.vm.regs 0) ≠ STORE ∧ (a0.val = R1 ∨ a0.val = R2))
    (hs : s.mem (s.vm.regs 0) = ADD ∨ s.mem (s.vm.regs 0) = SUB → a1.val < 3) :
    ∃ s1, cycle s = .ok s1 ∧ (s1.vm.regs 0).val = ((s.vm.regs 0).val + 3) % 256 := by
  have h2 : (s.vm.regs 0).val + 1 < 256 := by omega
  have h3 : (s.vm.regs 0).val + 2 < 256 := by omega
  have e0 : s.mem ⟨(s.vm.regs 0).val + 1, h2⟩ = a0 := by
    simpa [mem_read, h2] using h0
  have e1 : s.mem ⟨(s.vm.regs 0).val + 2, h3⟩ = a1 := by
    simpa [mem_read, h3] using h1
  have hf := fetch_three_byte s.vm s.mem s.raw_instr hp hk
  rw [e0, e1] at hf
  have ha0 : a0.val < 3 := by
    rcases hw with ⟨_, h⟩ | ⟨_, h | h⟩
    · exact h
    · simp [h, R1]
    · simp [h, R2]
  have hne : (⟨a0.val, ha0⟩ : Fin 3) ≠ 0 ∨ s.mem (s.vm.regs 0) = STORE := by
    rcases hw with ⟨h, _⟩ | ⟨_, h | h⟩
    · exact Or.inr h
    · exact Or.inl (by simp [Fin.ext_iff, h, R1])
    · exact Or.inl (by simp [Fin.ext_iff, h, R2])
  rcases hk with hk | hk | hk | hk
  · rw [hk] at hf
    have hne0 : (⟨a0.val, ha0⟩ : Fin 3) ≠ 0 := by
      rcases hne with h | h
      · exact h
      · rw [hk] at h; exact absurd h (by decide)
    refine ⟨_, cycle_of_parts s _ _ _ _ hf (decode_load_eq _ s.instr)
      (execute_load_eq s.vm s.mem a0 a1 ha0), ?_⟩
    exact pc_after_write s.vm.regs _ _ hne0
  · rw [hk] at hf
    refine ⟨_, cycle_of_parts s _ _ _ _ hf (decode_store_eq _ s.instr)
      (execute_store_eq s.vm s.mem a0 a1 ha0), ?_⟩
    exact advance_pc_val s.vm.regs 3
  · rw [hk] at hf
    have hne0 : (⟨a0.val, ha0⟩ : Fin 3) ≠ 0 := by
      rcases hne with h | h
      · exact h
      · rw [hk] at h; exact absurd h (by decide)
    refine ⟨_, cycle_of_parts s _ _ _ _ hf (decode_add_eq _ s.instr)
      (execute_add_eq s.vm s.mem a0 a1 ha0 (hs (Or.inl hk))), ?_⟩
    exact pc_after_write s.vm.regs _ _ hne0
  · rw [hk] at hf
    have hne0 : (⟨a0.val, ha0⟩ : Fin 3) ≠ 0 := by
      rcases hne with h | h
      · exact h
      · rw [hk] at h; exact absurd h (by decide)
    refine ⟨_, cycle_of_parts s _ _ _ _ hf (decode_sub_eq _ s.instr)
      (execute_sub_eq s.vm s.mem a0 a1 ha0 (hs (Or.inr hk))), ?_⟩
    exact pc_after_write s.vm.regs _ _ hne0

theorem fixed_width_witness :
    ((main_locals ⟨NIL, .dangling⟩ (fun _ => 0)).vm.regs 0).val ≤ 253 ∧
    (main_mem (vm_init.regs 0) = LOAD ∨ main_mem (vm_init.regs 0) = STORE ∨
      main_mem (vm_init.regs 0) = ADD ∨ main_mem (vm_init.regs 0) = SUB) ∧
    mem_read main_mem ((vm_init.regs 0).val + 1) = .ok 1 ∧
    mem_read main_mem ((vm_init.regs 0).val + 2) = .ok 1 ∧
    (main_mem (vm_init.regs 0) = STORE ∧ (1 : Byte).val < 3 ∨
      main_mem (vm_init.regs 0) ≠ STORE ∧ ((1 : Byte).val = R1 ∨ (1 : Byte).val = R2)) ∧
    (main_mem (vm_init.regs 0) = ADD ∨ main_mem (vm_init.regs 0) = SUB → (1 : Byte).val < 3) ∧
    ∃ s1, cycle (main_locals ⟨NIL, .dangling⟩ (fun _ => 0)) = .ok s1 ∧
      (s1.vm.regs 0).val = ((vm_init.regs 0).val + 3) % 256 :=
  ⟨by decide, by decide, rfl, rfl, by decide, by decide,
    fixed_width (main_locals ⟨NIL, .dangling⟩ (fun _ => 0)) 1 1 (by decide) (by decide) rfl rfl
      (by decide) (by decide)⟩

/-- C10, as stated, fails for the program counter: from `vm_init`, whose program
counter is 8, `execute` of a Halt instruction leaves the program counter at 9. -/
theorem halt_pc_counterexample :
    reg_after (execute vm_init ⟨HALT, .dangling⟩ main_mem) 0 = some 9 ∧ vm_init.regs 0 = 8 := by
  decide

/-- C10, amended. For every machine state and memory, `execute` of a Halt
instruction returns and leaves the memory, R1 and R2 unchanged, and the program
counter advanced by 1 (modulo 256); a cycle whose program counter points to a
Halt byte does the same to the state of the run and leaves `instr.kind` equal to
`HALT`, so that the run loop then does no further cycle, whatever fuel is left. -/
theorem halt_semantics (s : Locals) (h : s.mem (s.vm.regs 0) = HALT) :
    (∀ (vm : Vm) (mem : Mem) (p : Inner), ∃ vm1, execute vm ⟨HALT, p⟩ mem = .ok (vm1, mem) ∧
      vm1.regs 1 = vm.regs 1 ∧ vm1.regs 2 = vm.regs 2 ∧
      (vm1.regs 0).val = ((vm.regs 0).val + 1) % 256) ∧
    ∃ s1, cycle s = .ok s1 ∧ s1.mem = s.mem ∧ s1.vm.regs 1 = s.vm.regs 1 ∧
      s1.vm.regs 2 = s.vm.regs 2 ∧ (s1.vm.regs 0).val = ((s.vm.regs 0).val + 1) % 256 ∧
      s1.instr.kind = HALT ∧
      (∀ fuel c, run fuel c s1 = .exited c s1) ∧
      (s.instr.kind ≠ HALT → ∀ fuel c, run (fuel + 1) c s = .exited (c + 1) s1) := by
  have hex : ∀ (vm : Vm) (mem : Mem) (p : Inner),
      (Function.update vm.regs 0
          (to_u8 (((vm.regs 0).val : Int) + ((1 : Byte).val : Int))) 1 = vm.regs 1) ∧
      (Function.update vm.regs 0
          (to_u8 (((vm.regs 0).val : Int) + ((1 : Byte).val : Int))) 2 = vm.regs 2) ∧
      ((Function.update vm.regs 0
          (to_u8 (((vm.regs 0).val : Int) + ((1 : Byte).val : Int))) 0).val =
        ((vm.regs 0).val + 1) % 256) := by
    intro vm mem p
    refine ⟨Function.update_noteq (by decide) _ _, Function.update_noteq (by decide) _ _, ?_⟩
    exact advance_pc_val vm.regs 1
  refine ⟨fun vm mem p => ⟨_, execute_halt_eq vm mem p, hex vm mem p⟩, ?_⟩
  have hk : ¬ (s.mem (s.vm.regs 0) = LOAD ∨ s.mem (s.vm.regs 0) = STORE ∨
      s.mem (s.vm.regs 0) = ADD ∨ s.mem (s.vm.regs 0) = SUB) := by
    rw [h]; decide
  have hf := fetch_one_byte s.vm s.mem s.raw_instr hk
  rw [h] at hf
  have hc := cycle_of_parts s _ _ _ _ hf (decode_halt_eq _ s.instr)
    (execute_halt_eq s.vm s.mem s.instr.inner)
  have hkind : (instr_free ⟨HALT, s.instr.inner⟩).kind = HALT := instr_free_kind _
  refine ⟨_, hc, rfl, (hex s.vm s.mem s.instr.inner).1, (hex s.vm s.mem s.instr.inner).2.1,
    (hex s.vm s.mem s.instr.inner).2.2, hkind, ?_, ?_⟩
  · intro fuel c
    exact run_halted fuel c _ hkind
  · intro hne fuel c
    rw [run_step fuel c s _ hne hc]
    exact run_halted fuel (c + 1) _ hkind

theorem halt_semantics_witness :
    main_mem ((⟨fun i => if i.val = PC then 20 else 0⟩ : Vm).regs 0) = HALT ∧
    ((∀ (vm : Vm) (mem : Mem) (p : Inner), ∃ vm1, execute vm ⟨HALT, p⟩ mem = .ok (vm1, mem) ∧
      vm1.regs 1 = vm.regs 1 ∧ vm1.regs 2 = vm.regs 2 ∧
      (vm1.regs 0).val = ((vm.regs 0).val + 1) % 256) ∧
    ∃ s1, cycle ⟨main_mem, ⟨fun i => if i.val = PC then 20 else 0⟩,
        raw_instr_nil (fun _ => 0), ⟨NIL, .dangling⟩⟩ = .ok s1 ∧
      s1.mem = main_mem ∧ s1.vm.regs 1 = 0 ∧ s1.vm.regs 2 = 0 ∧
      (s1.vm.regs 0).val = (20 + 1) % 256 ∧ s1.instr.kind = HALT ∧
      (∀ fuel c, run fuel c s1 = .exited c s1) ∧
      ((⟨NIL, .dangling⟩ : Instr).kind ≠ HALT → ∀ fuel c,
        run (fuel + 1) c ⟨main_mem, ⟨fun i => if i.val = PC then 20 else 0⟩,
          raw_instr_nil (fun _ => 0), ⟨NIL, .dangling⟩⟩ = .exited (c + 1) s1)) :=
  ⟨by decide, halt_semantics ⟨main_mem, ⟨fun i => if i.val = PC then 20 else 0⟩,
    raw_instr_nil (fun _ => 0), ⟨NIL, .dangling⟩⟩ (by decide)⟩

/-! ## C11: unknown opcodes -/

theorem fetch_mem_eq (vm : Vm) (mem mem0 : Mem) (raw raw1 : RawInstr)
    (h : fetch vm mem raw = .ok (mem0, raw1)) : mem0 = mem := by
  by_cases hk : mem (vm.regs 0) = LOAD ∨ mem (vm.regs 0) = STORE ∨ mem (vm.regs 0) = ADD ∨
      mem (vm.regs 0) = SUB
  · by_cases hp : (vm.regs 0).val ≤ 253
    · rw [fetch_three_byte vm mem raw hp hk] at h
      simp only [Except.ok.injEq, Prod.mk.injEq] at h
      exact h.1.symm
    · rw [fetch_top vm mem raw (by omega) hk] at h
      exact absurd h (by simp)
  · rw [fetch_one_byte vm mem raw hk] at h
    simp only [Except.ok.injEq, Prod.mk.injEq] at h
    exact h.1.symm

theorem decode_unknown_eq (raw : RawInstr) (instr : Instr)
    (h : ¬ (raw.kind.val = 0x01 ∨ raw.kind.val = 0x02 ∨ raw.kind.val = 0x03 ∨
      raw.kind.val = 0x04 ∨ raw.kind.val = 0xFF)) :
    decode raw instr = .error (.decodeUnknown raw.kind) := by
  have e1 : raw.kind = LOAD ↔ raw.kind.val = 0x01 := Fin.ext_iff
  have e2 : raw.kind = STORE ↔ raw.kind.val = 0x02 := Fin.ext_iff
  have e3 : raw.kind = ADD ↔ raw.kind.val = 0x03 := Fin.ext_iff
  have e4 : raw.kind = SUB ↔ raw.kind.val = 0x04 := Fin.ext_iff
  have e5 : raw.kind = HALT ↔ raw.kind.val = 0xFF := Fin.ext_iff
  simp only [decode, e1, e2, e3, e4, e5]
  split_ifs with h1 h2 h3 h4 h5 <;> simp_all

/-- C11. For every machine state and memory in which `memory[program_counter]`
is none of 0x01, 0x02, 0x03, 0x04, 0xFF, one fetch-decode-execute cycle ends in
the unknown-opcode fatal error of `decode`, and the registers (program counter
included) and the whole memory at the point of failure are those from before the
cycle; a run whose loop is entered in such a state ends in that error. -/
theorem unknown_opcode_fatal (s : Locals)
    (h : ¬ ((s.mem (s.vm.regs 0)).val = 0x01 ∨ (s.mem (s.vm.regs 0)).val = 0x02 ∨
      (s.mem (s.vm.regs 0)).val = 0x03 ∨ (s.mem (s.vm.regs 0)).val = 0x04 ∨
      (s.mem (s.vm.regs 0)).val = 0xFF)) :
    cycle s = .error (.decodeUnknown (s.mem (s.vm.regs 0)), s.vm, s.mem) ∧
    (s.instr.kind ≠ HALT → ∀ fuel c,
      run (fuel + 1) c s = .fatal c (.decodeUnknown (s.mem (s.vm.regs 0))) s.vm s.mem) := by
  have hk : ¬ (s.mem (s.vm.regs 0) = LOAD ∨ s.mem (s.vm.regs 0) = STORE ∨
      s.mem (s.vm.regs 0) = ADD ∨ s.mem (s.vm.regs 0) = SUB) := by
    intro hk
    apply h
    rcases hk with hk | hk | hk | hk <;> rw [hk] <;> decide
  have hf := fetch_one_byte s.vm s.mem s.raw_instr hk
  have hd : decode { s.raw_instr with kind := s.mem (s.vm.regs 0) } s.instr =
      .error (.decodeUnknown (s.mem (s.vm.regs 0))) :=
    decode_unknown_eq _ s.instr h
  have hc : cycle s = .error (.decodeUnknown (s.mem (s.vm.regs 0)), s.vm, s.mem) := by
    simp [cycle, hf, hd]
  refine ⟨hc, ?_⟩
  intro hne fuel c
  exact run_fail fuel c s _ hne hc

theorem unknown_opcode_fatal_witness :
    ¬ ((Function.update main_mem 8 0x99 (vm_init.regs 0)).val = 0x01 ∨
      (Function.update main_mem 8 0x99 (vm_init.regs 0)).val = 0x02 ∨
      (Function.update main_mem 8 0x99 (vm_init.regs 0)).val = 0x03 ∨
      (Function.update main_mem 8 0x99 (vm_init.regs 0)).val = 0x04 ∨
      (Function.update main_mem 8 0x99 (vm_init.regs 0)).val = 0xFF) ∧
    (cycle ⟨Function.update main_mem 8 0x99, vm_init, raw_instr_nil (fun _ => 0),
        ⟨NIL, .dangling⟩⟩ =
      .error (.decodeUnknown (Function.update main_mem 8 0x99 (vm_init.regs 0)), vm_init,
        Function.update main_mem 8 0x99) ∧
    ((⟨NIL, .dangling⟩ : Instr).kind ≠ HALT → ∀ fuel c,
      run (fuel + 1) c ⟨Function.update main_mem 8 0x99, vm_init, raw_instr_nil (fun _ => 0),
        ⟨NIL, .dangling⟩⟩ =
      .fatal c (.decodeUnknown (Function.update main_mem 8 0x99 (vm_init.regs 0))) vm_init
        (Function.update main_mem 8 0x99))) :=
  ⟨by decide, unknown_opcode_fatal ⟨Function.update main_mem 8 0x99, vm_init,
    raw_instr_nil (fun _ => 0), ⟨NIL, .dangling⟩⟩ (by decide)⟩

/-! ## C12: programs that never halt -/

theorem cycle_load (s : Locals) (r a : Byte) (hp : (s.vm.regs 0).val ≤ 253)
    (hk : s.mem (s.vm.regs 0) = LOAD)
    (h0 : mem_read s.mem ((s.vm.regs 0).val + 1) = .ok r)
    (h1 : mem_read s.mem ((s.vm.regs 0).val + 2) = .ok a) (hr : r.val < 3) :
    ∃ s1, cycle s = .ok s1 ∧ s1.mem = s.mem ∧ s1.instr.kind = LOAD ∧
      s1.vm.regs = Function.update (Function.update s.vm.regs ⟨r.val, hr⟩ (s.mem a)) 0
        (to_u8 (((Function.update s.vm.regs ⟨r.val, hr⟩ (s.mem a) 0).val : Int)
          + ((3 : Byte).val : Int))) := by
  have h2 : (s.vm.regs 0).val + 1 < 256 := by omega
  have h3 : (s.vm.regs 0).val + 2 < 256 := by omega
  have e0 : s.mem ⟨(s.vm.regs 0).val + 1, h2⟩ = r := by
    simpa [mem_read, h2] using h0
  have e1 : s.mem ⟨(s.vm.regs 0).val + 2, h3⟩ = a := by
    simpa [mem_read, h3] using h1
  have hf := fetch_three_byte s.vm s.mem s.raw_instr hp (Or.inl hk)
  rw [e0, e1, hk] at hf
  exact ⟨_, cycle_of_parts s _ _ _ _ hf (decode_load_eq _ s.instr)
    (execute_load_eq s.vm s.mem r a hr), rfl, instr_free_kind _, rfl⟩

theorem wrap_step (s : Locals) (hm : s.mem = wrap_mem)
    (hpc : s.vm.regs 0 = 8 ∨ s.vm.regs 0 = 253 ∨ s.vm.regs 0 = 0) :
    ∃ s1, cycle s = .ok s1 ∧ s1.mem = wrap_mem ∧ s1.instr.kind ≠ HALT ∧
      (s1.vm.regs 0 = 8 ∨ s1.vm.regs 0 = 253 ∨ s1.vm.regs 0 = 0) := by
  rcases hpc with h | h | h
  · obtain ⟨s1, hc, hm1, hk1, hr1⟩ := cycle_load s 0 3 (by rw [h]; decide)
      (by rw [hm, h]; decide) (by rw [hm, h]; rfl) (by rw [hm, h]; rfl) (by decide)
    refine ⟨s1, hc, hm1.trans hm, by rw [hk1]; decide, Or.inr (Or.inl ?_)⟩
    rw [hr1, hm]
    simp only [Function.update_same]
    show to_u8 (((wrap_mem 3).val : Int) + ((3 : Byte).val : Int)) = 253
    decide
  · obtain ⟨s1, hc, hm1, hk1, hr1⟩ := cycle_load s 1 1 (by rw [h]; decide)
      (by rw [hm, h]; decide) (by rw [hm, h]; rfl) (by rw [hm, h]; rfl) (by decide)
    refine ⟨s1, hc, hm1.trans hm, by rw [hk1]; decide, Or.inr (Or.inr ?_)⟩
    rw [hr1, hm]
    simp only [Function.update_same]
    rw [Function.update_noteq (by decide), h]
    decide
  · obtain ⟨s1, hc, hm1, hk1, hr1⟩ := cycle_load s 0 4 (by rw [h]; decide)
      (by rw [hm, h]; decide) (by rw [hm, h]; rfl) (by rw [hm, h]; rfl) (by decide)
    refine ⟨s1, hc, hm1.trans hm, by rw [hk1]; decide, Or.inl ?_⟩
    rw [hr1, hm]
    simp only [Function.update_same]
    show to_u8 (((wrap_mem 4).val : Int) + ((3 : Byte).val : Int)) = 8
    decide

theorem wrap_run (fuel : Nat) : ∀ (c : Nat) (s : Locals), s.mem = wrap_mem →
    s.instr.kind ≠ HALT → (s.vm.regs 0 = 8 ∨ s.vm.regs 0 = 253 ∨ s.vm.regs 0 = 0) →
    ∃ s1, run fuel c s = .out_of_fuel (c + fuel) s1 := by
  induction fuel with
  | zero =>
    intro c s _ hk _
    refine ⟨s, ?_⟩
    unfold run
    simp [hk]
  | succ n ih =>
    intro c s hm hk hpc
    obtain ⟨s1, hc, hm1, hk1, hpc1⟩ := wrap_step s hm hpc
    obtain ⟨s2, h2⟩ := ih (c + 1) s1 hm1 hk1 hpc1
    refine ⟨s2, ?_⟩
    rw [run_step n c s s1 hk hc, h2]
    congr 1
    omega

/-- C12, evaluated on a failing input. On the memory image `wrap_mem` the run
from `vm_init` never executes a Halt and never meets an unknown opcode, and it
does not end in the fetch-out-of-bounds error: the loop is still running after
any number of cycles. After the first cycle the program counter is 253; the
three-byte instruction there runs off the end of the memory, and the program
counter silently wraps around to 0, from where the program jumps back to 8. -/
theorem runaway_wraps_and_runs_forever :
    runs_forever wrap_locals ∧
    pc_at (run 1 0 wrap_locals) = some 253 ∧
    pc_at (run 2 0 wrap_locals) = some 0 ∧
    pc_at (run 3 0 wrap_locals) = some 8 := by
  refine ⟨?_, by decide!, by decide!, by decide!⟩
  intro fuel
  obtain ⟨s1, h⟩ := wrap_run fuel 0 wrap_locals rfl (by decide) (Or.inl rfl)
  exact ⟨s1, by rw [h, Nat.zero_add]⟩

/-! ## C13 and C14: more on `execute` -/

/-- C13. For every machine state, memory, address `a` and general-purpose
register index `r` in {1, 2}, `execute` of Store{register = r, address = a}
followed by `execute` of Load{register = r, address = a} returns both times,
leaves register `r` equal to its value before the Store, and leaves `memory[a]`
equal to that same value. -/
theorem load_store_round_trip (vm : Vm) (mem : Mem) (r a : Byte)
    (hr : r.val = R1 ∨ r.val = R2) :
    ∃ v vm1 mem1 vm2, reg_read vm r.val = .ok v ∧
      execute vm ⟨STORE, .store ⟨r, a⟩⟩ mem = .ok (vm1, mem1) ∧
      execute vm1 ⟨LOAD, .load ⟨r, a⟩⟩ mem1 = .ok (vm2, mem1) ∧
      reg_read vm2 r.val = .ok v ∧ mem1 a = v := by
  have hr3 : r.val < 3 := by rcases hr with h | h <;> simp [h, R1, R2]
  refine ⟨vm.regs ⟨r.val, hr3⟩, _, _, _, ?_, execute_store_eq vm mem r a hr3,
    execute_load_eq _ _ r a hr3, ?_, ?_⟩
  · simp [reg_read, hr3]
  · rcases hr with h | h <;>
      simp [reg_read, h, R1, R2, Function.update_apply, Fin.ext_iff]
  · simp

theorem load_store_round_trip_witness :
    ((2 : Byte).val = R1 ∨ (2 : Byte).val = R2) ∧
    ∃ v vm1 mem1 vm2, reg_read ⟨fun _ => 7⟩ (2 : Byte).val = .ok v ∧
      execute ⟨fun _ => 7⟩ ⟨STORE, .store ⟨2, 5⟩⟩ main_mem = .ok (vm1, mem1) ∧
      execute vm1 ⟨LOAD, .load ⟨2, 5⟩⟩ mem1 = .ok (vm2, mem1) ∧
      reg_read vm2 (2 : Byte).val = .ok v ∧ mem1 5 = v :=
  ⟨by decide, load_store_round_trip ⟨fun _ => 7⟩ main_mem 2 5 (by decide)⟩

theorem cycle_ok_inv (s s1 : Locals) (hc : cycle s = .ok s1) :
    ∃ raw instr, fetch s.vm s.mem s.raw_instr = .ok (s.mem, raw) ∧
      decode raw s.instr = .ok instr ∧ execute s.vm instr s.mem = .ok (s1.vm, s1.mem) ∧
      s1.raw_instr = raw ∧ s1.instr = instr_free instr := by
  unfold cycle at hc
  cases hf : fetch s.vm s.mem s.raw_instr with
  | error e => simp [hf] at hc
  | ok res =>
    obtain ⟨mem0, raw⟩ := res
    have hm : mem0 = s.mem := fetch_mem_eq _ _ _ _ _ hf
    subst hm
    rw [hf] at hc
    cases hd : decode raw s.instr with
    | error e => simp [hd] at hc
    | ok instr =>
      cases he : execute s.vm instr s.mem with
      | error e => simp [hd, he] at hc
      | ok res2 =>
        obtain ⟨vm1, mem1⟩ := res2
        simp [hd, he] at hc
        subst hc
        exact ⟨raw, instr, rfl, hd, he, rfl, rfl⟩

/-- C14, as stated, fails: from `vm_init`, whose program counter is 8,
`execute` of Store{register = 1, address = 0} leaves the program counter at 11. -/
theorem execute_advances_counterexample :
    reg_after (execute vm_init ⟨STORE, .store ⟨1, 0⟩⟩ main_mem) 0 = some 11 ∧
      vm_init.regs 0 = 8 := by
  decide

/-- C14, amended. For every machine state, memory and instruction (Load, Store,
Add, Sub with register operands in {1, 2}, or Halt), `execute` returns and
itself advances the program counter by the instruction length, 3 for
Load/Store/Add/Sub and 1 for Halt, modulo 256; the driver loop adds nothing: the
machine state and memory after a cycle are the ones `execute` returned. -/
theorem execute_advances_pc (vm : Vm) (mem : Mem) (r1 r2 a : Byte) (p : Inner)
    (h1 : r1.val = R1 ∨ r1.val = R2) (h2 : r2.val = R1 ∨ r2.val = R2) :
    (∃ vm1 mem1, execute vm ⟨LOAD, .load ⟨r1, a⟩⟩ mem = .ok (vm1, mem1) ∧
      (vm1.regs 0).val = ((vm.regs 0).val + 3) % 256) ∧
    (∃ vm1 mem1, execute vm ⟨STORE, .store ⟨r1, a⟩⟩ mem = .ok (vm1, mem1) ∧
      (vm1.regs 0).val = ((vm.regs 0).val + 3) % 256) ∧
    (∃ vm1 mem1, execute vm ⟨ADD, .add ⟨r1, r2⟩⟩ mem = .ok (vm1, mem1) ∧
      (vm1.regs 0).val = ((vm.regs 0).val + 3) % 256) ∧
    (∃ vm1 mem1, execute vm ⟨SUB, .sub ⟨r1, r2⟩⟩ mem = .ok (vm1, mem1) ∧
      (vm1.regs 0).val = ((vm.regs 0).val + 3) % 256) ∧
    (∃ vm1 mem1, execute vm ⟨HALT, p⟩ mem = .ok (vm1, mem1) ∧
      (vm1.regs 0).val = ((vm.regs 0).val + 1) % 256) ∧
    (∀ s s1 : Locals, cycle s = .ok s1 →
      ∃ instr, execute s.vm instr s.mem = .ok (s1.vm, s1.mem)) := by
  have hr1 : r1.val < 3 := by rcases h1 with h | h <;> simp [h, R1, R2]
  have hr2 : r2.val < 3 := by rcases h2 with h | h <;> simp [h, R1, R2]
  have hne : (⟨r1.val, hr1⟩ : Fin 3) ≠ 0 := by
    rcases h1 with h | h <;> simp [Fin.ext_iff, h, R1, R2]
  refine ⟨⟨_, _, execute_load_eq vm mem r1 a hr1, pc_after_write vm.regs _ _ hne⟩,
    ⟨_, _, execute_store_eq vm mem r1 a hr1, advance_pc_val vm.regs 3⟩,
    ⟨_, _, execute_add_eq vm mem r1 r2 hr1 hr2, pc_after_write vm.regs _ _ hne⟩,
    ⟨_, _, execute_sub_eq vm mem r1 r2 hr1 hr2, pc_after_write vm.regs _ _ hne⟩,
    ⟨_, _, execute_halt_eq vm mem p, advance_pc_val vm.regs 1⟩, ?_⟩
  intro s s1 hc
  obtain ⟨raw, instr, _, _, he, _⟩ := cycle_ok_inv s s1 hc
  exact ⟨instr, he⟩

theorem execute_advances_pc_witness :
    ((1 : Byte).val = R1 ∨ (1 : Byte).val = R2) ∧ ((2 : Byte).val = R1 ∨ (2 : Byte).val = R2) ∧
    ((∃ vm1 mem1, execute vm_init ⟨LOAD, .load ⟨1, 0⟩⟩ main_mem = .ok (vm1, mem1) ∧
      (vm1.regs 0).val = ((vm_init.regs 0).val + 3) % 256) ∧
    (∃ vm1 mem1, execute vm_init ⟨STORE, .store ⟨1, 0⟩⟩ main_mem = .ok (vm1, mem1) ∧
      (vm1.regs 0).val = ((vm_init.regs 0).val + 3) % 256) ∧
    (∃ vm1 mem1, execute vm_init ⟨ADD, .add ⟨1, 2⟩⟩ main_mem = .ok (vm1, mem1) ∧
      (vm1.regs 0).val = ((vm_init.regs 0).val + 3) % 256) ∧
    (∃ vm1 mem1, execute vm_init ⟨SUB, .sub ⟨1, 2⟩⟩ main_mem = .ok (vm1, mem1) ∧
      (vm1.regs 0).val = ((vm_init.regs 0).val + 3) % 256) ∧
    (∃ vm1 mem1, execute vm_init ⟨HALT, .dangling⟩ main_mem = .ok (vm1, mem1) ∧
      (vm1.regs 0).val = ((vm_init.regs 0).val + 1) % 256) ∧
    (∀ s s1 : Locals, cycle s = .ok s1 →
      ∃ instr, execute s.vm instr s.mem = .ok (s1.vm, s1.mem))) :=
  ⟨by decide, by decide,
    execute_advances_pc vm_init main_mem 1 2 0 .dangling (by decide) (by decide)⟩

/-! ## C15 to C17: more on `fetch` and on the driver -/

/-- C15, as stated, fails: with the program counter at the Halt byte of the
memory of `main` (cell 20) and a raw instruction that still holds the Store of
the previous cycle with operands 1 and 7, `fetch` returns the opcode Halt with
the operands 1 and 7 carried over, not zero; and in the run of `main` itself the
raw instruction of the Halt cycle keeps operand 1 of the Store before it. -/
theorem fetch_halt_operands_counterexample :
    fetch ⟨fun i => if i.val = PC then 20 else 0⟩ main_mem
        ⟨STORE, fun i => if i.val = 0 then 1 else 7⟩ =
      .ok (main_mem, ⟨HALT, fun i => if i.val = 0 then 1 else 7⟩) ∧
    exited_with (main ⟨NIL, .dangling⟩ (fun _ => 0) 5) 5
      (fun s => s.raw_instr.kind = HALT ∧ s.raw_instr.args 0 = 1) :=
  ⟨rfl, by decide!⟩

/-- C15, amended. For every memory and machine state in which
`memory[program_counter]` is Halt or any unrecognised byte (not a Load, Store,
Add or Sub opcode), `fetch` succeeds without error, returns that byte as the
opcode, and reads no operand from the memory (the result is the same for every
memory with that byte at the program counter): the operand bytes of the raw
instruction are left as they were before the call, which in the loop are those
of the previous cycle; when the byte is Halt the cycle completes with them. -/
theorem fetch_one_byte_contract (vm : Vm) (mem : Mem) (raw : RawInstr)
    (h : ¬ (mem (vm.regs 0) = LOAD ∨ mem (vm.regs 0) = STORE ∨ mem (vm.regs 0) = ADD ∨
      mem (vm.regs 0) = SUB)) :
    fetch vm mem raw = .ok (mem, ⟨mem (vm.regs 0), raw.args⟩) ∧
    (∀ mem2 : Mem, mem2 (vm.regs 0) = mem (vm.regs 0) →
      fetch vm mem2 raw = .ok (mem2, ⟨mem (vm.regs 0), raw.args⟩)) ∧
    (∀ s : Locals, s.mem (s.vm.regs 0) = HALT →
      ∃ s1, cycle s = .ok s1 ∧ s1.raw_instr = ⟨HALT, s.raw_instr.args⟩) := by
  refine ⟨fetch_one_byte vm mem raw h, ?_, ?_⟩
  · intro mem2 h2
    have h3 : ¬ (mem2 (vm.regs 0) = LOAD ∨ mem2 (vm.regs 0) = STORE ∨
        mem2 (vm.regs 0) = ADD ∨ mem2 (vm.regs 0) = SUB) := by
      rw [h2]; exact h
    rw [fetch_one_byte vm mem2 raw h3, h2]
  · intro s hs
    have hk : ¬ (s.mem (s.vm.regs 0) = LOAD ∨ s.mem (s.vm.regs 0) = STORE ∨
        s.mem (s.vm.regs 0) = ADD ∨ s.mem (s.vm.regs 0) = SUB) := by
      rw [hs]; decide
    have hf := fetch_one_byte s.vm s.mem s.raw_instr hk
    rw [hs] at hf
    exact ⟨_, cycle_of_parts s _ _ _ _ hf (decode_halt_eq _ s.instr)
      (execute_halt_eq s.vm s.mem s.instr.inner), rfl⟩

theorem fetch_one_byte_contract_witness :
    ¬ (Function.update main_mem 8 0x99 (vm_init.regs 0) = LOAD ∨
      Function.update main_mem 8 0x99 (vm_init.regs 0) = STORE ∨
      Function.update main_mem 8 0x99 (vm_init.regs 0) = ADD ∨
      Function.update main_mem 8 0x99 (vm_init.regs 0) = SUB) ∧
    (fetch vm_init (Function.update main_mem 8 0x99) ⟨LOAD, fun _ => 1⟩ =
      .ok (Function.update main_mem 8 0x99,
        ⟨Function.update main_mem 8 0x99 (vm_init.regs 0), fun _ => 1⟩) ∧
    (∀ mem2 : Mem, mem2 (vm_init.regs 0) = Function.update main_mem 8 0x99 (vm_init.regs 0) →
      fetch vm_init mem2 ⟨LOAD, fun _ => 1⟩ =
        .ok (mem2, ⟨Function.update main_mem 8 0x99 (vm_init.regs 0), fun _ => 1⟩)) ∧
    (∀ s : Locals, s.mem (s.vm.regs 0) = HALT →
      ∃ s1, cycle s = .ok s1 ∧ s1.raw_instr = ⟨HALT, s.raw_instr.args⟩)) :=
  ⟨by decide, fetch_one_byte_contract vm_init (Function.update main_mem 8 0x99)
    ⟨LOAD, fun _ => 1⟩ (by decide)⟩

/-- C16, evaluated on a failing input. Two runs of `main` on its own memory
image differ with the byte the uninitialised `instr.kind` happens to hold: if it
is 0xFF the loop is left at once, after 0 cycles, with `memory[0] = 0`, program
counter 8 and R1 = 0; if it is 0x00 the loop runs 5 cycles and ends with
`memory[0] = 8`, program counter 21 and R1 = 8. -/
theorem main_depends_on_uninitialised_instr :
    exited_with (main ⟨HALT, .dangling⟩ (fun _ => 0) 5) 0
      (fun s => s.mem 0 = 0 ∧ s.vm.regs 0 = 8 ∧ s.vm.regs 1 = 0) ∧
    exited_with (main ⟨NIL, .dangling⟩ (fun _ => 0) 5) 5
      (fun s => s.mem 0 = 8 ∧ s.vm.regs 0 = 21 ∧ s.vm.regs 1 = 8) := by
  decide!

/-- C17. The memory reads of `fetch` all lie in `[0, 256)` if and only if the
program counter is at most 253 or `memory[program_counter]` is not a Load,
Store, Add or Sub opcode; when the program counter is 254 or 255 and the opcode
is one of those four, `fetch` does not raise its fetch-out-of-bounds error and
reads an operand at `program_counter + 1` or `program_counter + 2`, an index
that is 256 or more: the index does not wrap around to 0 or 1. -/
theorem fetch_operand_reads_unchecked (vm : Vm) (mem : Mem) (raw : RawInstr) :
    ((∀ idx, fetch vm mem raw ≠ .error (.memOutOfBounds idx)) ↔
      ((vm.regs 0).val ≤ 253 ∨
        ¬ (mem (vm.regs 0) = LOAD ∨ mem (vm.regs 0) = STORE ∨ mem (vm.regs 0) = ADD ∨
          mem (vm.regs 0) = SUB))) ∧
    (((vm.regs 0).val = 254 ∨ (vm.regs 0).val = 255) ∧
        (mem (vm.regs 0) = LOAD ∨ mem (vm.regs 0) = STORE ∨ mem (vm.regs 0) = ADD ∨
          mem (vm.regs 0) = SUB) →
      fetch vm mem raw ≠ .error .fetchOutOfBounds ∧
      ∃ idx, fetch vm mem raw = .error (.memOutOfBounds idx) ∧ 256 ≤ idx ∧
        (idx = (vm.regs 0).val + 1 ∨ idx = (vm.regs 0).val + 2)) := by
  constructor
  · constructor
    · intro hall
      by_contra hcon
      rw [not_or, not_not] at hcon
      exact hall 256 (fetch_top vm mem raw (by omega) hcon.2)
    · intro h idx
      by_cases hk : mem (vm.regs 0) = LOAD ∨ mem (vm.regs 0) = STORE ∨
          mem (vm.regs 0) = ADD ∨ mem (vm.regs 0) = SUB
      · have hp : (vm.regs 0).val ≤ 253 := by
          rcases h with h | h
          · exact h
          · exact (h hk).elim
        rw [fetch_three_byte vm mem raw hp hk]
        simp
      · rw [fetch_one_byte vm mem raw hk]
        simp
  · rintro ⟨hp, hk⟩
    have ht := fetch_top vm mem raw (by omega) hk
    refine ⟨by rw [ht]; simp, 256, ht, le_refl _, ?_⟩
    omega

/-! ## C18 to C20: what cannot happen, and what is not checked -/

theorem execute_load_bad (vm : Vm) (mem : Mem) (r a : Byte) (hr : ¬ r.val < 3) :
    execute vm ⟨LOAD, .load ⟨r, a⟩⟩ mem = .error (.regOutOfBounds r.val) := by
  simp [execute, mem_read, reg_write, hr]

theorem execute_store_bad (vm : Vm) (mem : Mem) (r a : Byte) (hr : ¬ r.val < 3) :
    execute vm ⟨STORE, .store ⟨r, a⟩⟩ mem = .error (.regOutOfBounds r.val) := by
  simp [execute, reg_read, hr, STORE, LOAD]

theorem execute_add_bad_a (vm : Vm) (mem : Mem) (a b : Byte) (ha : ¬ a.val < 3) :
    execute vm ⟨ADD, .add ⟨a, b⟩⟩ mem = .error (.regOutOfBounds a.val) := by
  simp [execute, reg_read, ha, STORE, LOAD, ADD]

theorem execute_add_bad_b (vm : Vm) (mem : Mem) (a b : Byte) (ha : a.val < 3)
    (hb : ¬ b.val < 3) :
    execute vm ⟨ADD, .add ⟨a, b⟩⟩ mem = .error (.regOutOfBounds b.val) := by
  simp [execute, reg_read, ha, hb, STORE, LOAD, ADD]

theorem execute_sub_bad_a (vm : Vm) (mem : Mem) (a b : Byte) (ha : ¬ a.val < 3) :
    execute vm ⟨SUB, .sub ⟨a, b⟩⟩ mem = .error (.regOutOfBounds a.val) := by
  simp [execute, reg_read, ha, STORE, LOAD, ADD, SUB]

theorem execute_sub_bad_b (vm : Vm) (mem : Mem) (a b : Byte) (ha : a.val < 3)
    (hb : ¬ b.val < 3) :
    execute vm ⟨SUB, .sub ⟨a, b⟩⟩ mem = .error (.regOutOfBounds b.val) := by
  simp [execute, reg_read, ha, hb, STORE, LOAD, ADD, SUB]

/-- What `execute` does with a decoded Load. -/
theorem execute_load_cases (vm : Vm) (mem : Mem) (r a : Byte) :
    (r.val < 3 ∧ ∃ vm1, execute vm ⟨LOAD, .load ⟨r, a⟩⟩ mem = .ok (vm1, mem)) ∨
    (3 ≤ r.val ∧ execute vm ⟨LOAD, .load ⟨r, a⟩⟩ mem = .error (.regOutOfBounds r.val)) := by
  by_cases hr : r.val < 3
  · exact Or.inl ⟨hr, _, execute_load_eq vm mem r a hr⟩
  · exact Or.inr ⟨by omega, execute_load_bad vm mem r a hr⟩

/-- What `execute` does with a decoded Store. -/
theorem execute_store_cases (vm : Vm) (mem : Mem) (r a : Byte) :
    (r.val < 3 ∧ ∃ vm1 mem1, execute vm ⟨STORE, .store ⟨r, a⟩⟩ mem = .ok (vm1, mem1)) ∨
    (3 ≤ r.val ∧ execute vm ⟨STORE, .store ⟨r, a⟩⟩ mem = .error (.regOutOfBounds r.val)) := by
  by_cases hr : r.val < 3
  · exact Or.inl ⟨hr, _, _, execute_store_eq vm mem r a hr⟩
  · exact Or.inr ⟨by omega, execute_store_bad vm mem r a hr⟩

/-- What `execute` does with a decoded Add. -/
theorem execute_add_cases (vm : Vm) (mem : Mem) (a b : Byte) :
    (a.val < 3 ∧ b.val < 3 ∧ ∃ vm1, execute vm ⟨ADD, .add ⟨a, b⟩⟩ mem = .ok (vm1, mem)) ∨
    (∃ i, 3 ≤ i ∧ (i = a.val ∨ i = b.val) ∧
      execute vm ⟨ADD, .add ⟨a, b⟩⟩ mem = .error (.regOutOfBounds i)) := by
  by_cases ha : a.val < 3
  · by_cases hb : b.val < 3
    · exact Or.inl ⟨ha, hb, _, execute_add_eq vm mem a b ha hb⟩
    · exact Or.inr ⟨b.val, by omega, Or.inr rfl, execute_add_bad_b vm mem a b ha hb⟩
  · exact Or.inr ⟨a.val, by omega, Or.inl rfl, execute_add_bad_a vm mem a b ha⟩

/-- What `execute` does with a decoded Sub. -/
theorem execute_sub_cases (vm : Vm) (mem : Mem) (a b : Byte) :
    (a.val < 3 ∧ b.val < 3 ∧ ∃ vm1, execute vm ⟨SUB, .sub ⟨a, b⟩⟩ mem = .ok (vm1, mem)) ∨
    (∃ i, 3 ≤ i ∧ (i = a.val ∨ i = b.val) ∧
      execute vm ⟨SUB, .sub ⟨a, b⟩⟩ mem = .error (.regOutOfBounds i)) := by
  by_cases ha : a.val < 3
  · by_cases hb : b.val < 3
    · exact Or.inl ⟨ha, hb, _, execute_sub_eq vm mem a b ha hb⟩
    · exact Or.inr ⟨b.val, by omega, Or.inr rfl, execute_sub_bad_b vm mem a b ha hb⟩
  · exact Or.inr ⟨a.val, by omega, Or.inl rfl, execute_sub_bad_a vm mem a b ha⟩

/-- The instructions `decode` can return. -/
theorem decode_ok_shape (raw : RawInstr) (prev instr : Instr)
    (hd : decode raw prev = .ok instr) :
    instr = ⟨LOAD, .load ⟨raw.args 0, raw.args 1⟩⟩ ∨
    instr = ⟨STORE, .store ⟨raw.args 0, raw.args 1⟩⟩ ∨
    instr = ⟨ADD, .add ⟨raw.args 0, raw.args 1⟩⟩ ∨
    instr = ⟨SUB, .sub ⟨raw.args 0, raw.args 1⟩⟩ ∨
    instr = ⟨HALT, prev.inner⟩ := by
  unfold decode at hd
  simp only at hd
  split_ifs at hd with h1 h2 h3 h4 h5
  · rw [h1] at hd; simp at hd; exact Or.inl hd.symm
  · rw [h2] at hd; simp at hd; exact Or.inr (Or.inl hd.symm)
  · rw [h3] at hd; simp at hd; exact Or.inr (Or.inr (Or.inl hd.symm))
  · rw [h4] at hd; simp at hd; exact Or.inr (Or.inr (Or.inr (Or.inl hd.symm)))
  · rw [h5] at hd; simp at hd; exact Or.inr (Or.inr (Or.inr (Or.inr hd.symm)))

/-- C18. For every raw instruction on which `decode` succeeds, `execute` applied
to the decoded instruction, in any machine state and memory, does not take its
default branch, the one that reports an unknown instruction; nor does it find a
payload of another type than the tag announces. -/
theorem execute_default_unreachable (raw : RawInstr) (prev instr : Instr)
    (hd : decode raw prev = .ok instr) (vm : Vm) (mem : Mem) :
    (∀ k, execute vm instr mem ≠ .error (.executeUnknown k)) ∧
    execute vm instr mem ≠ .error .badPayload := by
  rcases decode_ok_shape raw prev instr hd with h | h | h | h | h <;> subst h
  · rcases execute_load_cases vm mem (raw.args 0) (raw.args 1) with ⟨_, _, h⟩ | ⟨_, h⟩ <;>
      rw [h] <;> simp
  · rcases execute_store_cases vm mem (raw.args 0) (raw.args 1) with ⟨_, _, _, h⟩ | ⟨_, h⟩ <;>
      rw [h] <;> simp
  · rcases execute_add_cases vm mem (raw.args 0) (raw.args 1) with
      ⟨_, _, _, h⟩ | ⟨_, _, _, h⟩ <;> rw [h] <;> simp
  · rcases execute_sub_cases vm mem (raw.args 0) (raw.args 1) with
      ⟨_, _, _, h⟩ | ⟨_, _, _, h⟩ <;> rw [h] <;> simp
  · rw [execute_halt_eq]
    simp

theorem execute_default_unreachable_witness :
    decode ⟨ADD, fun _ => 9⟩ ⟨NIL, .dangling⟩ = .ok ⟨ADD, .add ⟨9, 9⟩⟩ ∧
    (∀ k, execute vm_init ⟨ADD, .add ⟨9, 9⟩⟩ main_mem ≠ .error (.executeUnknown k)) ∧
    execute vm_init ⟨ADD, .add ⟨9, 9⟩⟩ main_mem ≠ .error .badPayload :=
  ⟨rfl, execute_default_unreachable ⟨ADD, fun _ => 9⟩ ⟨NIL, .dangling⟩ ⟨ADD, .add ⟨9, 9⟩⟩ rfl
    vm_init main_mem⟩

/-- C19. For every machine state, memory and decoded Load, Store, Add or Sub
instruction, no memory access of `execute` is outside `[0, 256)`, whatever the
8-bit address operand is, and the accesses to the three-slot register array are
all in bounds if and only if every register operand of the instruction is in
{0, 1, 2}; with a register operand of 3 or more `execute` makes the access with
that index, unchecked, and reports no error: it does not end in its
unknown-instruction error. -/
theorem execute_access_bounds (vm : Vm) (mem : Mem) (r a b : Byte) :
    ((∀ i, execute vm ⟨LOAD, .load ⟨r, a⟩⟩ mem ≠ .error (.memOutOfBounds i)) ∧
      ((∀ i, execute vm ⟨LOAD, .load ⟨r, a⟩⟩ mem ≠ .error (.regOutOfBounds i)) ↔ r.val < 3) ∧
      (∀ k, execute vm ⟨LOAD, .load ⟨r, a⟩⟩ mem ≠ .error (.executeUnknown k)) ∧
      (3 ≤ r.val → execute vm ⟨LOAD, .load ⟨r, a⟩⟩ mem = .error (.regOutOfBounds r.val))) ∧
    ((∀ i, execute vm ⟨STORE, .store ⟨r, a⟩⟩ mem ≠ .error (.memOutOfBounds i)) ∧
      ((∀ i, execute vm ⟨STORE, .store ⟨r, a⟩⟩ mem ≠ .error (.regOutOfBounds i)) ↔
        r.val < 3) ∧
      (∀ k, execute vm ⟨STORE, .store ⟨r, a⟩⟩ mem ≠ .error (.executeUnknown k)) ∧
      (3 ≤ r.val → execute vm ⟨STORE, .store ⟨r, a⟩⟩ mem = .error (.regOutOfBounds r.val))) ∧
    ((∀ i, execute vm ⟨ADD, .add ⟨r, b⟩⟩ mem ≠ .error (.memOutOfBounds i)) ∧
      ((∀ i, execute vm ⟨ADD, .add ⟨r, b⟩⟩ mem ≠ .error (.regOutOfBounds i)) ↔
        (r.val < 3 ∧ b.val < 3)) ∧
      (∀ k, execute vm ⟨ADD, .add ⟨r, b⟩⟩ mem ≠ .error (.executeUnknown k)) ∧
      (¬ (r.val < 3 ∧ b.val < 3) → ∃ i, 3 ≤ i ∧ (i = r.val ∨ i = b.val) ∧
        execute vm ⟨ADD, .add ⟨r, b⟩⟩ mem = .error (.regOutOfBounds i))) ∧
    ((∀ i, execute vm ⟨SUB, .sub ⟨r, b⟩⟩ mem ≠ .error (.memOutOfBounds i)) ∧
      ((∀ i, execute vm ⟨SUB, .sub ⟨r, b⟩⟩ mem ≠ .error (.regOutOfBounds i)) ↔
        (r.val < 3 ∧ b.val < 3)) ∧
      (∀ k, execute vm ⟨SUB, .sub ⟨r, b⟩⟩ mem ≠ .error (.executeUnknown k)) ∧
      (¬ (r.val < 3 ∧ b.val < 3) → ∃ i, 3 ≤ i ∧ (i = r.val ∨ i = b.val) ∧
        execute vm ⟨SUB, .sub ⟨r, b⟩⟩ mem = .error (.regOutOfBounds i))) := by
  refine ⟨?_, ?_, ?_, ?_⟩
  · rcases execute_load_cases vm mem r a with ⟨hr, _, h⟩ | ⟨hr, h⟩
    · rw [h]
      exact ⟨by simp, ⟨fun _ => hr, fun _ => by simp⟩, by simp, fun h3 => by omega⟩
    · rw [h]
      refine ⟨by simp, ⟨fun hall => absurd rfl (hall r.val), fun h3 => by omega⟩, by simp,
        fun _ => rfl⟩
  · rcases execute_store_cases vm mem r a with ⟨hr, _, _, h⟩ | ⟨hr, h⟩
    · rw [h]
      exact ⟨by simp, ⟨fun _ => hr, fun _ => by simp⟩, by simp, fun h3 => by omega⟩
    · rw [h]
      refine ⟨by simp, ⟨fun hall => absurd rfl (hall r.val), fun h3 => by omega⟩, by simp,
        fun _ => rfl⟩
  · rcases execute_add_cases vm mem r b with ⟨hr, hb, _, h⟩ | ⟨i, hi, hor, h⟩
    · rw [h]
      exact ⟨by simp, ⟨fun _ => ⟨hr, hb⟩, fun _ => by simp⟩, by simp,
        fun hn => absurd ⟨hr, hb⟩ hn⟩
    · rw [h]
      refine ⟨by simp, ⟨fun hall => absurd rfl (hall i), fun h3 => ?_⟩, by simp,
        fun _ => ⟨i, hi, hor, rfl⟩⟩
      rcases hor with e | e <;> omega
  · rcases execute_sub_cases vm mem r b with ⟨hr, hb, _, h⟩ | ⟨i, hi, hor, h⟩
    · rw [h]
      exact ⟨by simp, ⟨fun _ => ⟨hr, hb⟩, fun _ => by simp⟩, by simp,
        fun hn => absurd ⟨hr, hb⟩ hn⟩
    · rw [h]
      refine ⟨by simp, ⟨fun hall => absurd rfl (hall i), fun h3 => ?_⟩, by simp,
        fun _ => ⟨i, hi, hor, rfl⟩⟩
      rcases hor with e | e <;> omega

theorem fetch_never_out_of_bounds (vm : Vm) (mem : Mem) (raw : RawInstr) :
    fetch vm mem raw ≠ .error .fetchOutOfBounds := by
  by_cases hk : mem (vm.regs 0) = LOAD ∨ mem (vm.regs 0) = STORE ∨ mem (vm.regs 0) = ADD ∨
      mem (vm.regs 0) = SUB
  · by_cases hp : (vm.regs 0).val ≤ 253
    · rw [fetch_three_byte vm mem raw hp hk]; simp
    · rw [fetch_top vm mem raw (by omega) hk]; simp
  · rw [fetch_one_byte vm mem raw hk]; simp

theorem decode_error_shape (raw : RawInstr) (prev : Instr) (e : Fault)
    (hd : decode raw prev = .error e) : e = .decodeUnknown raw.kind := by
  unfold decode at hd
  simp only at hd
  split_ifs at hd
  simp at hd
  exact hd.symm

theorem execute_decoded_error (raw : RawInstr) (prev instr : Instr) (vm : Vm) (mem : Mem)
    (e : Fault) (hd : decode raw prev = .ok instr) (he : execute vm instr mem = .error e) :
    ∃ i, 3 ≤ i ∧ e = .regOutOfBounds i := by
  rcases decode_ok_shape raw prev instr hd with h | h | h | h | h <;> subst h
  · rcases execute_load_cases vm mem (raw.args 0) (raw.args 1) with ⟨_, _, h⟩ | ⟨h3, h⟩
    · rw [h] at he; simp at he
    · rw [h] at he; simp at he; exact ⟨_, h3, he.symm⟩
  · rcases execute_store_cases vm mem (raw.args 0) (raw.args 1) with ⟨_, _, _, h⟩ | ⟨h3, h⟩
    · rw [h] at he; simp at he
    · rw [h] at he; simp at he; exact ⟨_, h3, he.symm⟩
  · rcases execute_add_cases vm mem (raw.args 0) (raw.args 1) with ⟨_, _, _, h⟩ | ⟨i, h3, _, h⟩
    · rw [h] at he; simp at he
    · rw [h] at he; simp at he; exact ⟨i, h3, he.symm⟩
  · rcases execute_sub_cases vm mem (raw.args 0) (raw.args 1) with ⟨_, _, _, h⟩ | ⟨i, h3, _, h⟩
    · rw [h] at he; simp at he
    · rw [h] at he; simp at he; exact ⟨i, h3, he.symm⟩
  · rw [execute_halt_eq] at he
    simp at he

theorem cycle_never_fetch_out_of_bounds (s : Locals) (vm1 : Vm) (mem1 : Mem) :
    cycle s ≠ .error (.fetchOutOfBounds, vm1, mem1) := by
  intro h
  cases hf : fetch s.vm s.mem s.raw_instr with
  | error e =>
    simp [cycle, hf] at h
    rw [h.1] at hf
    exact fetch_never_out_of_bounds _ _ _ hf
  | ok res =>
    obtain ⟨mem0, raw⟩ := res
    cases hd : decode raw s.instr with
    | error e =>
      simp [cycle, hf, hd] at h
      have he := decode_error_shape raw s.instr e hd
      rw [h.1] at he
      simp at he
    | ok instr =>
      cases he : execute s.vm instr mem0 with
      | error e =>
        simp [cycle, hf, hd, he] at h
        obtain ⟨i, _, hi⟩ := execute_decoded_error raw s.instr instr s.vm mem0 e hd he
        rw [h.1] at hi
        simp at hi
      | ok res2 =>
        simp [cycle, hf, hd, he] at h

theorem run_never_fetch_out_of_bounds (fuel : Nat) : ∀ (c : Nat) (s : Locals) (c1 : Nat)
    (vm1 : Vm) (mem1 : Mem), run fuel c s ≠ .fatal c1 .fetchOutOfBounds vm1 mem1 := by
  induction fuel with
  | zero =>
    intro c s c1 vm1 mem1 h
    unfold run at h
    split_ifs at h
  | succ n ih =>
    intro c s c1 vm1 mem1 h
    by_cases hk : s.instr.kind = HALT
    · rw [run_halted _ _ _ hk] at h
      simp at h
    · cases hc : cycle s with
      | error e =>
        rw [run_fail n c s e hk hc] at h
        simp only [Outcome.fatal.injEq] at h
        apply cycle_never_fetch_out_of_bounds s vm1 mem1
        rw [hc]
        obtain ⟨f, v, m⟩ := e
        simp only at h
        rw [h.2.1, h.2.2.1, h.2.2.2]
      | ok s1 =>
        rw [run_step n c s s1 hk hc] at h
        exact ih _ _ _ _ _ h

/-- C20. For every machine state and memory the program counter is an 8-bit
value, so the index `fetch` computes from it is below 256, the test
`instr_idx >= 256` is false, and `fetch` never ends in its error "tried to fetch
address bigger than main memory"; the statement of `execute` that advances the
program counter stores the sum reduced modulo 256, so that whatever `execute`
returns holds a program counter below 256, and no run of the loop ends in that
error: a three-byte instruction at 253 leaves the program counter at 0. -/
theorem fetch_check_never_fires (vm : Vm) (mem : Mem) (raw : RawInstr) :
    ¬ ((vm.regs 0).val % 65536 ≥ 256) ∧
    fetch vm mem raw ≠ .error .fetchOutOfBounds ∧
    (∀ n : Byte, ∃ vm1, advance vm n = .ok vm1 ∧
      (vm1.regs 0).val = ((vm.regs 0).val + n.val) % 256) ∧
    (∀ (instr : Instr) (vm1 : Vm) (mem1 : Mem),
      execute vm instr mem = .ok (vm1, mem1) → (vm1.regs 0).val < 256) ∧
    (∀ (fuel c : Nat) (s : Locals) (c1 : Nat) (vm1 : Vm) (mem1 : Mem),
      run fuel c s ≠ .fatal c1 .fetchOutOfBounds vm1 mem1) ∧
    reg_after (execute ⟨fun i => if i.val = PC then 253 else 0⟩ ⟨STORE, .store ⟨1, 0⟩⟩ mem) 0 =
      some 0 := by
  refine ⟨by omega, fetch_never_out_of_bounds vm mem raw, ?_, ?_, ?_, ?_⟩
  · intro n
    exact ⟨_, advance_eq vm n, advance_pc_val vm.regs n⟩
  · intro instr vm1 mem1 _
    exact (vm1.regs 0).isLt
  · intro fuel
    exact run_never_fetch_out_of_bounds fuel
  · rw [execute_store_eq _ mem 1 0 (by decide)]
    rfl

end ToyVm
